import Mathlib

/-!
Shallow embedding of the Klondike solitaire model and solver
(`src/klondike.rs` and `src/bin/klondike_solver.rs`).

Rust `Vec<Card>` piles are `List Card` with index 0 the bottom of the
pile and the last element the top.  Rust `bool`-returning predicates are
embedded as decidable `Prop`s.  Operations that can panic in Rust
(assertion failures, out-of-range indexing in `make_move`) return
`Option` with `none` standing for the panic.
-/

namespace Klondike

/-- `Suit` from `klondike.rs` (declaration order `Diamond, Club, Heart, Spade`,
which is the order `into_enum_iter` visits). -/
inductive Suit
  | diamond
  | club
  | heart
  | spade
deriving DecidableEq, Repr

/-- `Color` from `klondike.rs`. -/
inductive Color
  | black
  | red
deriving DecidableEq, Repr

/-- `Suit::color`. -/
def Suit.color : Suit → Color
  | .diamond | .heart => .red
  | .club | .spade => .black

/-- `Rank` from `klondike.rs` (`Ace = 1` through `King = 13`). -/
inductive Rank
  | ace
  | two
  | three
  | four
  | five
  | six
  | seven
  | eight
  | nine
  | ten
  | jack
  | queen
  | king
deriving DecidableEq, Repr

/-- The numeric value of a rank, matching the Rust discriminants `Ace = 1 .. King = 13`. -/
def Rank.val : Rank → Nat
  | .ace => 1
  | .two => 2
  | .three => 3
  | .four => 4
  | .five => 5
  | .six => 6
  | .seven => 7
  | .eight => 8
  | .nine => 9
  | .ten => 10
  | .jack => 11
  | .queen => 12
  | .king => 13

/-- `Card` from `klondike.rs`. -/
structure Card where
  suit : Suit
  rank : Rank
  face_up : Bool
deriving DecidableEq, Repr

/-- `Card::is_same_color`. -/
def Card.is_same_color (c other : Card) : Prop :=
  c.suit.color = other.suit.color

instance (c other : Card) : Decidable (c.is_same_color other) := by
  unfold Card.is_same_color; infer_instance

/-- `Card::is_one_below`: `other.rank as i32 - self.rank as i32 == 1`. -/
def Card.is_one_below (c other : Card) : Prop :=
  (other.rank.val : Int) - (c.rank.val : Int) = 1

instance (c other : Card) : Decidable (c.is_one_below other) := by
  unfold Card.is_one_below; infer_instance

/-- `StackId` from `klondike.rs`. -/
inductive StackId
  | stock
  | waste
  | foundation1
  | foundation2
  | foundation3
  | foundation4
  | tableau1
  | tableau2
  | tableau3
  | tableau4
  | tableau5
  | tableau6
  | tableau7
  | hand
deriving DecidableEq, Repr

/-- `StackId::next_impl`. -/
def StackId.next_impl (s : StackId) (wrap : Bool) : Option StackId :=
  match s with
  | .stock => some .waste
  | .waste => some .foundation1
  | .foundation1 => some .foundation2
  | .foundation2 => some .foundation3
  | .foundation3 => some .foundation4
  | .foundation4 => some .tableau1
  | .tableau1 => some .tableau2
  | .tableau2 => some .tableau3
  | .tableau3 => some .tableau4
  | .tableau4 => some .tableau5
  | .tableau5 => some .tableau6
  | .tableau6 => some .tableau7
  | .tableau7 => if wrap then some .stock else none
  | .hand => some .hand

/-- `StackId::next_no_wrap`. -/
def StackId.next_no_wrap (s : StackId) : Option StackId :=
  s.next_impl false

/-- `StackId::next` (the `expect` never fires: with `wrap = true` every arm is `Some`). -/
def StackId.next (s : StackId) : StackId :=
  match s.next_impl true with
  | some x => x
  | none => s

/-- `StackId::previous`. -/
def StackId.previous : StackId → StackId
  | .stock => .tableau7
  | .waste => .stock
  | .foundation1 => .waste
  | .foundation2 => .foundation1
  | .foundation3 => .foundation2
  | .foundation4 => .foundation3
  | .tableau1 => .foundation4
  | .tableau2 => .tableau1
  | .tableau3 => .tableau2
  | .tableau4 => .tableau3
  | .tableau5 => .tableau4
  | .tableau6 => .tableau5
  | .tableau7 => .tableau6
  | .hand => .hand

/-- `StackId::is_foundation`. -/
def StackId.is_foundation : StackId → Bool
  | .foundation1 | .foundation2 | .foundation3 | .foundation4 => true
  | _ => false

/-- The `FOUNDATIONS` constant. -/
def FOUNDATIONS : List StackId :=
  [.foundation1, .foundation2, .foundation3, .foundation4]

/-- The `TABLEAUX` constant. -/
def TABLEAUX : List StackId :=
  [.tableau1, .tableau2, .tableau3, .tableau4, .tableau5, .tableau6, .tableau7]

/-- `StackType` from `klondike.rs`. -/
inductive StackType
  | stock
  | waste
  | foundation
  | tableau
  | hand
deriving DecidableEq, Repr

/-- `Stack` from `klondike.rs`; `cards` is bottom .. top. -/
structure Stack where
  stack_id : StackId
  stack_type : StackType
  cards : List Card
deriving DecidableEq, Repr

/-- Index-carrying scan for the first face-up card, used to embed the
`for` loops in `next_active_card` and `is_top_face_up_card`:
`firstFaceUpAux cs i` returns the absolute index of the first face-up
card of `cs` when `cs` starts at absolute index `i`. -/
def firstFaceUpAux : List Card → Nat → Option Nat
  | [], _ => none
  | c :: rest, i => if c.face_up then some i else firstFaceUpAux rest (i + 1)

/-- `Stack::find_card` (first index holding the given rank and suit); the
index-carrying scan embeds `iter().enumerate().filter(..).nth(0)`. -/
def findCardAux : List Card → Rank → Suit → Nat → Option Nat
  | [], _, _, _ => none
  | c :: rest, r, s, i =>
    if c.rank = r ∧ c.suit = s then some i else findCardAux rest r s (i + 1)

def Stack.find_card (st : Stack) (r : Rank) (s : Suit) : Option Nat :=
  findCardAux st.cards r s 0

/-- `Stack::top_card_index`. -/
def Stack.top_card_index (st : Stack) : Nat :=
  if st.cards = [] then 0 else st.cards.length - 1

/-- `Stack::bottom_card`. -/
def Stack.bottom_card (st : Stack) : Option Card :=
  st.cards.head?

/-- `Stack::top_card`. -/
def Stack.top_card (st : Stack) : Option Card :=
  st.cards.getLast?

/-- The list behind `Stack::expose_top_card`: set the last card face-up. -/
def exposeTopList (cs : List Card) : List Card :=
  match cs.getLast? with
  | none => cs
  | some c => cs.dropLast ++ [{ c with face_up := true }]

/-- The list behind `Stack::flip_top_card`: toggle the last card's flag. -/
def flipTopList (cs : List Card) : List Card :=
  match cs.getLast? with
  | none => cs
  | some c => cs.dropLast ++ [{ c with face_up := !c.face_up }]

/-- `Stack::next_active_card`.  For Stock it always answers `None`; for
Waste/Foundation the only active position is the top; for Tableau (and
Hand, via the `_` arm) it scans for the first face-up card at or after
the requested start. -/
def Stack.next_active_card (st : Stack) (start : Option Nat) : Option Nat :=
  if st.cards = [] ∨ st.stack_type = .stock then none
  else
    let maxIdx := st.cards.length - 1
    let index := match start with
      | some i => i + 1
      | none => 0
    if index ≤ maxIdx then
      match st.stack_type with
      | .stock | .foundation | .waste => some maxIdx
      | _ => firstFaceUpAux (st.cards.drop index) index
    else none

/-- `Stack::is_top_face_up_card`: true iff the first face-up card of the
stack sits exactly at `index`. -/
def Stack.is_top_face_up_card (st : Stack) (index : Nat) : Prop :=
  firstFaceUpAux st.cards 0 = some index

instance (st : Stack) (index : Nat) : Decidable (st.is_top_face_up_card index) := by
  unfold Stack.is_top_face_up_card; infer_instance

/-- The suit each foundation is pinned to in `foundation_can_accept_card`
(`Foundation1` spades, `Foundation2` clubs, `Foundation3` hearts,
`Foundation4` diamonds; any other id gives the `_ => false` arm). -/
def foundationSuit : StackId → Option Suit
  | .foundation1 => some .spade
  | .foundation2 => some .club
  | .foundation3 => some .heart
  | .foundation4 => some .diamond
  | _ => none

/-- `Stack::foundation_can_accept_card`. -/
def Stack.foundation_can_accept_card (st : Stack) (card : Card) : Prop :=
  if st.cards = [] then
    card.rank = .ace ∧ foundationSuit st.stack_id = some card.suit
  else
    match st.top_card with
    | some top => card.suit = top.suit ∧ top.is_one_below card
    | none => False

instance (st : Stack) (card : Card) : Decidable (st.foundation_can_accept_card card) :=
  if h : st.cards = [] then
    decidable_of_iff (card.rank = .ace ∧ foundationSuit st.stack_id = some card.suit)
      (by simp [Stack.foundation_can_accept_card, h])
  else
    match htop : st.top_card with
    | some top =>
      decidable_of_iff (card.suit = top.suit ∧ top.is_one_below card)
        (by simp [Stack.foundation_can_accept_card, h, htop])
    | none =>
      decidable_of_iff False
        (by simp [Stack.foundation_can_accept_card, h, htop])

/-- `Stack::tableau_can_accept_card`. -/
def Stack.tableau_can_accept_card (st : Stack) (card : Card) : Prop :=
  match st.top_card with
  | some top => ¬ top.is_same_color card ∧ card.is_one_below top
  | none => card.rank = .king

instance (st : Stack) (card : Card) : Decidable (st.tableau_can_accept_card card) :=
  match htop : st.top_card with
  | some top =>
    decidable_of_iff (¬ top.is_same_color card ∧ card.is_one_below top)
      (by simp [Stack.tableau_can_accept_card, htop])
  | none =>
    decidable_of_iff (card.rank = .king)
      (by simp [Stack.tableau_can_accept_card, htop])

/-- `Stack::can_play_card`. -/
def Stack.can_play_card (st : Stack) (card : Card) (moving_cards_count : Nat) : Prop :=
  match st.stack_type with
  | .foundation => moving_cards_count = 1 ∧ st.foundation_can_accept_card card
  | .tableau => st.tableau_can_accept_card card
  | _ => False

instance (st : Stack) (card : Card) (n : Nat) : Decidable (st.can_play_card card n) :=
  match hty : st.stack_type with
  | .foundation =>
    decidable_of_iff (n = 1 ∧ st.foundation_can_accept_card card)
      (by simp [Stack.can_play_card, hty])
  | .tableau =>
    decidable_of_iff (st.tableau_can_accept_card card)
      (by simp [Stack.can_play_card, hty])
  | .stock => decidable_of_iff False (by simp [Stack.can_play_card, hty])
  | .waste => decidable_of_iff False (by simp [Stack.can_play_card, hty])
  | .hand => decidable_of_iff False (by simp [Stack.can_play_card, hty])

/-- `Source` from `klondike.rs`. -/
structure Source where
  stack : StackId
  index : Nat
deriving DecidableEq, Repr

/-- `Table` from `klondike.rs`.  The Rust `foundations: Vec<Stack>` (always four
entries) and `tableaux: Vec<Stack>` (always seven entries) are embedded as
explicit fields, matching the positions `get_stack` indexes. -/
structure Table where
  stock : Stack
  waste : Stack
  in_hand : Stack
  foundation1 : Stack
  foundation2 : Stack
  foundation3 : Stack
  foundation4 : Stack
  tableau1 : Stack
  tableau2 : Stack
  tableau3 : Stack
  tableau4 : Stack
  tableau5 : Stack
  tableau6 : Stack
  tableau7 : Stack
  source : Source
  target : StackId
deriving DecidableEq, Repr

/-- `Table::get_stack`. -/
def Table.get (t : Table) : StackId → Stack
  | .stock => t.stock
  | .waste => t.waste
  | .foundation1 => t.foundation1
  | .foundation2 => t.foundation2
  | .foundation3 => t.foundation3
  | .foundation4 => t.foundation4
  | .tableau1 => t.tableau1
  | .tableau2 => t.tableau2
  | .tableau3 => t.tableau3
  | .tableau4 => t.tableau4
  | .tableau5 => t.tableau5
  | .tableau6 => t.tableau6
  | .tableau7 => t.tableau7
  | .hand => t.in_hand

/-- Writing through `Table::get_stack_mut`: replace one stack slot. -/
def Table.set (t : Table) (id : StackId) (st : Stack) : Table :=
  match id with
  | .stock => { t with stock := st }
  | .waste => { t with waste := st }
  | .foundation1 => { t with foundation1 := st }
  | .foundation2 => { t with foundation2 := st }
  | .foundation3 => { t with foundation3 := st }
  | .foundation4 => { t with foundation4 := st }
  | .tableau1 => { t with tableau1 := st }
  | .tableau2 => { t with tableau2 := st }
  | .tableau3 => { t with tableau3 := st }
  | .tableau4 => { t with tableau4 := st }
  | .tableau5 => { t with tableau5 := st }
  | .tableau6 => { t with tableau6 := st }
  | .tableau7 => { t with tableau7 := st }
  | .hand => { t with in_hand := st }

/-- The order `StackId::into_enum_iter` visits all fourteen ids
(declaration order), used by `Table::find_card`. -/
def allStackIds : List StackId :=
  [.stock, .waste, .foundation1, .foundation2, .foundation3, .foundation4,
   .tableau1, .tableau2, .tableau3, .tableau4, .tableau5, .tableau6, .tableau7, .hand]

/-- A `for` loop with an early `return`: the first `some` an option-valued
function takes on a list. -/
def findFirstSome {α β : Type} (f : α → Option β) : List α → Option β
  | [] => none
  | a :: rest =>
    match f a with
    | some b => some b
    | none => findFirstSome f rest

/-- `Table::find_card`: first stack (in `StackId` order) holding the card,
with the first matching index inside that stack. -/
def Table.find_card (t : Table) (r : Rank) (s : Suit) : Option Source :=
  findFirstSome (fun id =>
    Option.map (fun index => Source.mk id index) ((t.get id).find_card r s)) allStackIds

/-- `Table::cards_in_hand`. -/
def Table.cards_in_hand (t : Table) : Prop := t.in_hand.cards.length > 0

/-- `Table::has_cards_in_stock`. -/
def Table.has_cards_in_stock (t : Table) : Prop := t.stock.cards.length > 0

/-- `Table::has_cards_in_waste`. -/
def Table.has_cards_in_waste (t : Table) : Prop := t.waste.cards.length > 0

instance (t : Table) : Decidable t.cards_in_hand := by
  unfold Table.cards_in_hand; infer_instance

instance (t : Table) : Decidable t.has_cards_in_stock := by
  unfold Table.has_cards_in_stock; infer_instance

instance (t : Table) : Decidable t.has_cards_in_waste := by
  unfold Table.has_cards_in_waste; infer_instance

/-- `Table::cards_in_foundation`. -/
def Table.cards_in_foundation (t : Table) : Nat :=
  t.foundation1.cards.length + t.foundation2.cards.length +
    t.foundation3.cards.length + t.foundation4.cards.length

/-- `Table::winner`. -/
def Table.winner (t : Table) : Prop := t.cards_in_foundation = 52

instance (t : Table) : Decidable t.winner := by
  unfold Table.winner; infer_instance

/-- One iteration of the dealing loop in `deal_from_stock`: pop the top of
the Stock, flip it face-up, push it onto the Waste.  The `none` arm is
unreachable because the loop runs at most `stock.cards.length` times. -/
def dealOne (t : Table) : Table :=
  match t.stock.cards.getLast? with
  | none => t
  | some c =>
    (t.set .stock { t.stock with cards := t.stock.cards.dropLast }).set .waste
      { t.waste with cards := t.waste.cards ++ [{ c with face_up := true }] }

/-- The `for _ in 0..amount_to_deal` loop of `deal_from_stock`. -/
def dealN : Nat → Table → Table
  | 0, t => t
  | n + 1, t => dealN n (dealOne t)

/-- `Table::deal_from_stock`.  With a non-empty Stock it deals
`min 3 stock.len()` cards to the Waste; with an empty Stock it recycles:
the `mem::swap` moves the whole Waste into the (empty) Stock, every
Stock card is flipped face-down and the pile is reversed. -/
def Table.deal_from_stock (t : Table) : Table :=
  let amount_to_deal := min 3 t.stock.cards.length
  if amount_to_deal = 0 then
    (t.set .stock
      { t.stock with cards := (t.waste.cards.map fun c => { c with face_up := false }).reverse }).set
      .waste { t.waste with cards := [] }
  else
    dealN amount_to_deal t

/-- `Table::recycle_waste` (an alias for `deal_from_stock`). -/
def Table.recycle_waste (t : Table) : Table :=
  t.deal_from_stock

/-- `Table::expose_top_card_of_stack`. -/
def Table.expose_top_card_of_stack (t : Table) (id : StackId) : Table :=
  t.set id { t.get id with cards := exposeTopList (t.get id).cards }

/-- `Table::take_selected_cards_from_stack`.  Rust's `split_off(index)`
panics when `index > len` (embedded as `none`); when the removed suffix
is non-empty it *replaces* the Hand's contents. -/
def Table.take_selected_cards_from_stack (t : Table) (id : StackId) (index : Nat) :
    Option Table :=
  if index ≤ (t.get id).cards.length then
    let cards_for_hand := (t.get id).cards.drop index
    let t1 := t.set id { t.get id with cards := (t.get id).cards.take index }
    if cards_for_hand.length > 0 then
      some (t1.set .hand { t1.in_hand with cards := cards_for_hand })
    else
      some t1
  else
    none

/-- `Table::put_hand_on_stack`: swap the Hand's cards out, append them to the
target stack, expose the new top of the source's stack; returns the landing
index alongside the table. -/
def Table.put_hand_on_stack (t : Table) (source : Source) (id : StackId) :
    Table × Nat :=
  let cards := t.in_hand.cards
  let t1 := t.set .hand { t.in_hand with cards := [] }
  let index := (t1.get id).cards.length
  let t2 := t1.set id { t1.get id with cards := (t1.get id).cards ++ cards }
  (t2.expose_top_card_of_stack source.stack, index)

/-- The unshuffled 52-card deck built by `make_deck` before shuffling:
suits in declaration order, ranks `Ace .. King` within each suit, all
face-down. -/
def fullDeck : List Card :=
  ([Suit.diamond, .club, .heart, .spade].map fun s =>
    ([Rank.ace, .two, .three, .four, .five, .six, .seven, .eight, .nine, .ten,
      .jack, .queen, .king].map fun r => Card.mk s r false)).flatten

/-- A 64-bit linear congruential step (MMIX constants), the seed-to-seed
update of the modelled shuffle. -/
def lcg (s : Nat) : Nat :=
  (s * 6364136223846793005 + 1442695040888963407) % 18446744073709551616

/-- Modelled from the spec: `make_deck` in `klondike.rs` shuffles with
`rand_pcg::Pcg32::seed_from_u64(seed)` and `rand`'s `SliceRandom::shuffle`,
whose code lives in external crates and is not part of this repository.
The spec pins down only "a deterministic deal from a seeded shuffle (a
linear pseudo-random generator seeded by the given 64-bit value; same
seed ⇒ same deal, always)".  The model draws each position with a 64-bit
linear congruential generator; `shuffleAux` repeatedly extracts the card
at `state % remaining.length`, which is proved below to permute its
input, the only property the claims depend on. -/
def shuffleAux : Nat → Nat → List Card → List Card
  | 0, _, _ => []
  | _ + 1, _, [] => []
  | fuel + 1, state, x :: xs =>
    let l := x :: xs
    let k := state % l.length
    match l.get? k with
    | some c => c :: shuffleAux fuel (lcg state) (l.eraseIdx k)
    | none => []

/-- Modelled from the spec (see `shuffleAux`): `make_deck(seed)`. -/
def make_deck (seed : Nat) : List Card :=
  shuffleAux fullDeck.length (lcg seed) fullDeck

/-- One step of the tableau-dealing loop in `Table::new`: split the last
`n` cards off the working pile and flip the resulting stack's top card. -/
def takeTableau (cards : List Card) (id : StackId) (n : Nat) : List Card × Stack :=
  let start := cards.length - n
  (cards.take start,
    { stack_id := id, stack_type := .tableau, cards := flipTopList (cards.drop start) })

/-- `Table::new`: shuffle a deck, deal `1, 2, .., 7` cards from its end onto
the seven tableaux (flipping each top card), leave the rest as the Stock,
and point the cursor at the Stock (whose `next_active_card(None)` is
`None`, so `unwrap_or(0)` gives index 0). -/
def Table.new (seed : Nat) : Table :=
  let cards0 := make_deck seed
  let (cards1, t1) := takeTableau cards0 .tableau1 1
  let (cards2, t2) := takeTableau cards1 .tableau2 2
  let (cards3, t3) := takeTableau cards2 .tableau3 3
  let (cards4, t4) := takeTableau cards3 .tableau4 4
  let (cards5, t5) := takeTableau cards4 .tableau5 5
  let (cards6, t6) := takeTableau cards5 .tableau6 6
  let (cards7, t7) := takeTableau cards6 .tableau7 7
  let stock : Stack := { stack_id := .stock, stack_type := .stock, cards := cards7 }
  { stock := stock
    waste := { stack_id := .waste, stack_type := .waste, cards := [] }
    in_hand := { stack_id := .hand, stack_type := .hand, cards := [] }
    foundation1 := { stack_id := .foundation1, stack_type := .foundation, cards := [] }
    foundation2 := { stack_id := .foundation2, stack_type := .foundation, cards := [] }
    foundation3 := { stack_id := .foundation3, stack_type := .foundation, cards := [] }
    foundation4 := { stack_id := .foundation4, stack_type := .foundation, cards := [] }
    tableau1 := t1
    tableau2 := t2
    tableau3 := t3
    tableau4 := t4
    tableau5 := t5
    tableau6 := t6
    tableau7 := t7
    source := { stack := .stock, index := (stock.next_active_card none).getD 0 }
    target := .stock }

/-- `Play` from `klondike_solver.rs`. -/
inductive Play
  | setup
  | drawFromStock
  | recycleWaste
  | moveCards (source : Source) (target : StackId)
deriving DecidableEq, Repr

/-- `WeightedPlay::waste_king_priority`.  The default card in the face-up
lookup is never used: `Table::find_card` only returns in-range indexes
(Rust indexes directly). -/
def wasteKingPriority (card : Card) (t : Table) : Int :=
  match t.find_card .queen card.suit with
  | some queen_card_location =>
    match queen_card_location.stack with
    | .tableau1 | .tableau2 | .tableau3 | .tableau4 | .tableau5 | .tableau6 | .tableau7 =>
      let stack := t.get queen_card_location.stack
      let c := (stack.cards.get? queen_card_location.index).getD (Card.mk .spade .ace false)
      if c.face_up then 1 else -1
    | _ => 1
  | none => 99

/-- `WeightedPlay::tableau_move`.  (The inner `stack.cards.len() > 0` test is
kept even though `is_top_face_up_card` already implies it.) -/
def tableauMove (source : Source) (t : Table) : Int × Int :=
  let stack := t.get source.stack
  if stack.is_top_face_up_card source.index then
    if stack.cards.length > 0 then (0, (source.index : Int) + 1) else (0, 1)
  else (0, 1)

/-- The `(score, priority)` pair computed by `WeightedPlay::new`.  The Waste
branch indexes `stack.cards[source.index]` (in-range for generated plays);
the model reads it with a default that is never used there. -/
def weightedPlay (p : Play) (t : Table) : Int × Int :=
  match p with
  | .moveCards source target =>
    match target with
    | .foundation1 | .foundation2 | .foundation3 | .foundation4 => (5, 0)
    | .tableau1 | .tableau2 | .tableau3 | .tableau4 | .tableau5 | .tableau6 | .tableau7 =>
      match source.stack with
      | .waste =>
        let stack := t.get source.stack
        let card := (stack.cards.get? source.index).getD (Card.mk .spade .ace false)
        (5, if card.rank = .king then wasteKingPriority card t else 1)
      | .tableau1 | .tableau2 | .tableau3 | .tableau4 | .tableau5 | .tableau6 | .tableau7 =>
        tableauMove source t
      | .foundation1 | .foundation2 | .foundation3 | .foundation4 => (-10, 0)
      | _ => (0, 0)
    | _ => (0, 0)
  | _ => (0, 0)

/-- The condition `ActiveCardIterator::new` places on the starting source:
the stack's first active card, further required (except for the Waste) to
be the stack's first face-up card. -/
def startSourceOf (t : Table) (id : StackId) : Option Source :=
  match (t.get id).next_active_card none with
  | some i =>
    if id = .waste ∨ (t.get id).is_top_face_up_card i then some (Source.mk id i) else none
  | none => none

/-- `ActiveCardIterator::new`: the first stack (in `StackId` order, the Hand
included) whose first active card passes `startSourceOf`. -/
def findStart (t : Table) : Option Source :=
  findFirstSome (fun id => startSourceOf t id) allStackIds

/-- The stacks `ActiveCardIterator::next` still visits after exhausting
stack `s`: it follows `StackId::next` until it reaches `Stock` again.
`Hand` is mapped to the empty list: in the code `Hand.next() == Hand`, so
an iterator that reached the Hand would cycle on the Hand forever; the
Hand holds cards only transiently inside an applied move, never when
plays are generated. -/
def stacksAfter : StackId → List StackId
  | .stock => [.waste, .foundation1, .foundation2, .foundation3, .foundation4,
      .tableau1, .tableau2, .tableau3, .tableau4, .tableau5, .tableau6, .tableau7]
  | .waste => [.foundation1, .foundation2, .foundation3, .foundation4,
      .tableau1, .tableau2, .tableau3, .tableau4, .tableau5, .tableau6, .tableau7]
  | .foundation1 => [.foundation2, .foundation3, .foundation4,
      .tableau1, .tableau2, .tableau3, .tableau4, .tableau5, .tableau6, .tableau7]
  | .foundation2 => [.foundation3, .foundation4,
      .tableau1, .tableau2, .tableau3, .tableau4, .tableau5, .tableau6, .tableau7]
  | .foundation3 => [.foundation4,
      .tableau1, .tableau2, .tableau3, .tableau4, .tableau5, .tableau6, .tableau7]
  | .foundation4 => [.tableau1, .tableau2, .tableau3, .tableau4, .tableau5, .tableau6, .tableau7]
  | .tableau1 => [.tableau2, .tableau3, .tableau4, .tableau5, .tableau6, .tableau7]
  | .tableau2 => [.tableau3, .tableau4, .tableau5, .tableau6, .tableau7]
  | .tableau3 => [.tableau4, .tableau5, .tableau6, .tableau7]
  | .tableau4 => [.tableau5, .tableau6, .tableau7]
  | .tableau5 => [.tableau6, .tableau7]
  | .tableau6 => [.tableau7]
  | .tableau7 => []
  | .hand => []

/-- The successive indexes `next_active_card` yields inside one stack when
called repeatedly with the previous answer as the new start.  Each answer
is strictly larger than the start it was asked for, so
`st.cards.length + 1` steps of fuel are always enough. -/
def sourcesFromAux (st : Stack) : Nat → Option Nat → List Nat
  | 0, _ => []
  | fuel + 1, cur =>
    match st.next_active_card cur with
    | some i => i :: sourcesFromAux st fuel (some i)
    | none => []

def sourcesInStack (st : Stack) (start : Option Nat) : List Nat :=
  sourcesFromAux st (st.cards.length + 1) start

/-- The full source sequence produced by `ActiveCardIterator`: the starting
source, the remaining active cards of its stack, then every active card
of each later stack up to `Tableau7`. -/
def activeSources (t : Table) : List Source :=
  match findStart t with
  | none => []
  | some s =>
    (s :: (sourcesInStack (t.get s.stack) (some s.index)).map fun i => Source.mk s.stack i)
      ++ (stacksAfter s.stack).flatMap fun id =>
          (sourcesInStack (t.get id) none).map fun i => Source.mk id i

/-- The target ids `CardPlayIterator` scans, starting from `Waste` and
following `next_no_wrap` to `Tableau7` (`can_play_card` is false on the
Waste itself, so the effective targets are the foundations and tableaux). -/
def targetIds : List StackId :=
  [.waste, .foundation1, .foundation2, .foundation3, .foundation4,
   .tableau1, .tableau2, .tableau3, .tableau4, .tableau5, .tableau6, .tableau7]

/-- The plays `CardPlayIterator` emits for one active card: one
`MoveCards` per target accepting the run `[source.index ..]`.
`moving_cards_count` is `source stack len - source.index` as in
`next_legal_play` (whose `assert!(moving_cards_count > 0)` holds because
active-card indexes are always in range, which also makes the `none` arm
of the card lookup unreachable). -/
def cardPlays (t : Table) (source : Source) : List Play :=
  match (t.get source.stack).cards.get? source.index with
  | none => []
  | some card =>
    let moving_cards_count := (t.get source.stack).cards.length - source.index
    targetIds.filterMap fun id =>
      if (t.get id).can_play_card card moving_cards_count then
        some (Play.moveCards source id)
      else none

/-- `PlayIterator`: `DrawFromStock` when the Stock is non-empty, otherwise
`RecycleWaste` when the Waste is non-empty, followed in either case by
every legal `MoveCards` for every active card. -/
def generatePlays (t : Table) : List Play :=
  (if t.has_cards_in_stock then [Play.drawFromStock]
   else if t.has_cards_in_waste then [Play.recycleWaste]
   else [])
    ++ (activeSources t).flatMap fun s => cardPlays t s

/-- The backward scan of `SearchNode::filter_play`'s `RecycleWaste` arm,
running over the reversed previous plays: skip the trailing draws; hitting
a `RecycleWaste` (or running out with only draws) rejects, anything else
accepts. -/
def recycleScan : List Play → Bool
  | [] => false
  | .drawFromStock :: rest => recycleScan rest
  | .recycleWaste :: _ => false
  | _ :: _ => true

/-- `SearchNode::filter_play`.  In the `source.index == 0` arm, Rust reads
`stack.cards[0]`, which panics on an empty stack; generated plays always
index a non-empty stack, and the model reads a default (non-King) card in
that unreachable case. -/
def filterPlay (t : Table) (play : Play) (previous_plays : List Play) : Option Play :=
  match play with
  | .recycleWaste =>
    if previous_plays.length > 0 then
      if recycleScan previous_plays.reverse then some play else none
    else some play
  | .moveCards source target =>
    match target with
    | .foundation1 | .foundation2 | .foundation3 | .foundation4 => some play
    | _ =>
      match source.stack with
      | .foundation1 | .foundation2 | .foundation3 | .foundation4 => none
      | .waste => some play
      | _ =>
        let stack := t.get source.stack
        if source.index = 0 then
          if ((stack.cards.get? 0).getD (Card.mk .spade .ace false)).rank = .king then none
          else some play
        else if stack.is_top_face_up_card source.index then some play
        else none
  | _ => some play

/-- `make_move` from `klondike_solver.rs`; `none` is a Rust panic (a failed
`assert!`, the `Setup` `panic!`, or `split_off` out of range). -/
def makeMove (play : Play) (t : Table) : Option Table :=
  match play with
  | .drawFromStock =>
    if t.has_cards_in_stock then some t.deal_from_stock else none
  | .recycleWaste =>
    if t.has_cards_in_stock then none else some t.recycle_waste
  | .moveCards source stack_id =>
    (t.take_selected_cards_from_stack source.stack source.index).map fun t1 =>
      (t1.put_hand_on_stack source stack_id).1
  | .setup => none

/-! ### Reachability relations -/

/-- One solver step as `C1` reads it: a play produced by the generator and
applied with `make_move`. -/
def GenStep (t t' : Table) : Prop :=
  ∃ p, p ∈ generatePlays t ∧ makeMove p t = some t'

/-- Tables reachable from `Table::new(seed)` by generator-produced plays. -/
inductive GenReachable : Nat → Table → Prop
  | init (seed : Nat) : GenReachable seed (Table.new seed)
  | step {seed t t'} : GenReachable seed t → GenStep t t' → GenReachable seed t'

/-- One step as the search engine performs it: a generated play that also
passes `filter_play` (for some previous-play list) before `make_move`. -/
def SearchStep (t t' : Table) : Prop :=
  ∃ p prev, p ∈ generatePlays t ∧ filterPlay t p prev = some p ∧ makeMove p t = some t'

/-- Tables reachable from `Table::new(seed)` by filtered search steps. -/
inductive SearchReach : Nat → Table → Prop
  | init (seed : Nat) : SearchReach seed (Table.new seed)
  | step {seed t t'} : SearchReach seed t → SearchStep t t' → SearchReach seed t'

/-- Zero or more filtered search steps. -/
inductive StepsFrom : Table → Table → Prop
  | refl (t : Table) : StepsFrom t t
  | tail {a b c : Table} : StepsFrom a b → SearchStep b c → StepsFrom a c

/-! ### Stack-slot update laws -/

theorem Table.get_set_same (t : Table) (a : StackId) (st : Stack) :
    (t.set a st).get a = st := by
  cases a <;> rfl

theorem Table.get_set_ne (t : Table) {a b : StackId} (st : Stack) (h : b ≠ a) :
    (t.set a st).get b = t.get b := by
  cases a <;> cases b <;> first | rfl | exact absurd rfl h

/-! ### Card conservation accounting -/

/-- The (suit, rank) pair of a card: the identity that survives flips. -/
def pairOf (c : Card) : Suit × Rank := (c.suit, c.rank)

/-- The multiset of (suit, rank) pairs in one stack. -/
def stackPairs (st : Stack) : Multiset (Suit × Rank) :=
  (st.cards.map pairOf : List (Suit × Rank))

/-- The multiset of (suit, rank) pairs across all fourteen stack slots
(Stock, Waste, the four Foundations, the seven Tableaux, and the Hand). -/
def cardPairs (t : Table) : Multiset (Suit × Rank) :=
  (allStackIds.map fun id => stackPairs (t.get id)).sum

/-- The pairs of the full deck. -/
def fullDeckPairs : Multiset (Suit × Rank) :=
  (fullDeck.map pairOf : List (Suit × Rank))

theorem cardPairs_set (t : Table) (a : StackId) (st : Stack) :
    cardPairs (t.set a st) + stackPairs (t.get a) = cardPairs t + stackPairs st := by
  cases a <;> simp [cardPairs, allStackIds, Table.set, Table.get] <;> abel

theorem stackPairs_mk (id : StackId) (ty : StackType) (cs : List Card) :
    stackPairs ⟨id, ty, cs⟩ = (cs.map pairOf : List (Suit × Rank)) := rfl

theorem stackPairs_cards (st : Stack) (cs : List Card) :
    stackPairs { st with cards := cs } = (cs.map pairOf : List (Suit × Rank)) := rfl

theorem stackPairs_take_drop (st : Stack) (i : Nat) :
    (((st.cards.take i).map pairOf : List (Suit × Rank)) : Multiset (Suit × Rank))
      + ((st.cards.drop i).map pairOf : List (Suit × Rank)) = stackPairs st := by
  unfold stackPairs
  rw [Multiset.coe_add, ← List.map_append, List.take_append_drop]

theorem pairOf_set_face (c : Card) (b : Bool) : pairOf { c with face_up := b } = pairOf c := rfl

theorem map_pairOf_exposeTopList (cs : List Card) :
    (exposeTopList cs).map pairOf = cs.map pairOf := by
  unfold exposeTopList
  cases h : cs.getLast? with
  | none => rfl
  | some c =>
    conv_rhs => rw [← List.dropLast_append_getLast? c h]
    simp [pairOf]

theorem map_pairOf_flipTopList (cs : List Card) :
    (flipTopList cs).map pairOf = cs.map pairOf := by
  unfold flipTopList
  cases h : cs.getLast? with
  | none => rfl
  | some c =>
    conv_rhs => rw [← List.dropLast_append_getLast? c h]
    simp [pairOf]

theorem cardPairs_set₂ (t : Table) {a b : StackId} (sa sb : Stack) (hba : b ≠ a) :
    cardPairs ((t.set a sa).set b sb) + (stackPairs (t.get a) + stackPairs (t.get b))
      = cardPairs t + (stackPairs sa + stackPairs sb) := by
  have e1 := cardPairs_set t a sa
  have e2 := cardPairs_set (t.set a sa) b sb
  rw [Table.get_set_ne _ _ hba] at e2
  refine Multiset.ext.mpr fun x => ?_
  have c1 := congrArg (Multiset.count x) e1
  have c2 := congrArg (Multiset.count x) e2
  simp only [Multiset.count_add] at c1 c2 ⊢
  omega

/-- Splitting the pairs of a stack whose card list is an append. -/
theorem stackPairs_append (st : Stack) (l1 l2 : List Card) :
    stackPairs { st with cards := l1 ++ l2 }
      = ((l1.map pairOf : List (Suit × Rank)) : Multiset (Suit × Rank)) + (l2.map pairOf : List (Suit × Rank)) := by
  rw [stackPairs_cards, List.map_append, ← Multiset.coe_add]

theorem cardPairs_dealOne (t : Table) : cardPairs (dealOne t) = cardPairs t := by
  unfold dealOne
  cases h : t.stock.cards.getLast? with
  | none => rfl
  | some c =>
    dsimp only
    have key := cardPairs_set₂ t
      (a := .stock) (b := .waste)
      ({ t.stock with cards := t.stock.cards.dropLast })
      ({ t.waste with cards := t.waste.cards ++ [{ c with face_up := true }] })
      (by decide)
    have hcards : t.stock.cards = t.stock.cards.dropLast ++ [c] :=
      (List.dropLast_append_getLast? c h).symm
    simp only [Table.get, stackPairs_cards, stackPairs] at key
    rw [show List.map pairOf t.stock.cards
          = List.map pairOf t.stock.cards.dropLast ++ List.map pairOf [c] from by
        rw [← List.map_append, ← hcards]] at key
    rw [show List.map pairOf (t.waste.cards ++ [{ c with face_up := true }])
          = List.map pairOf t.waste.cards ++ List.map pairOf [c] from by
        rw [← List.map_append]; simp [pairOf]] at key
    refine Multiset.ext.mpr fun x => ?_
    have k := congrArg (Multiset.count x) key
    simp only [← Multiset.coe_add, Multiset.count_add] at k ⊢
    omega

theorem cardPairs_dealN (n : Nat) (t : Table) : cardPairs (dealN n t) = cardPairs t := by
  induction n generalizing t with
  | zero => rfl
  | succ n ih => rw [dealN, ih, cardPairs_dealOne]

theorem cardPairs_deal_from_stock (t : Table) :
    cardPairs t.deal_from_stock = cardPairs t := by
  unfold Table.deal_from_stock
  dsimp only
  split
  · rename_i h0
    have hnil : t.stock.cards = [] := by
      refine List.length_eq_zero.mp ?_
      omega
    have key := cardPairs_set₂ t
      (a := .stock) (b := .waste)
      ({ t.stock with cards := (t.waste.cards.map fun c => { c with face_up := false }).reverse })
      ({ t.waste with cards := [] })
      (by decide)
    simp only [Table.get, stackPairs_cards, stackPairs] at key
    rw [show List.map pairOf ((t.waste.cards.map fun c => { c with face_up := false }).reverse)
          = (List.map pairOf t.waste.cards).reverse from by
        rw [List.map_reverse, List.map_map]; rfl] at key
    rw [hnil] at key
    refine Multiset.ext.mpr fun x => ?_
    have k := congrArg (Multiset.count x) key
    simp only [Multiset.count_add, List.map_nil, Multiset.coe_nil, Multiset.count_zero,
      Multiset.coe_reverse] at k ⊢
    omega
  · exact cardPairs_dealN _ t

theorem cardPairs_expose (t : Table) (id : StackId) :
    cardPairs (t.expose_top_card_of_stack id) = cardPairs t := by
  unfold Table.expose_top_card_of_stack
  have key := cardPairs_set t id { t.get id with cards := exposeTopList (t.get id).cards }
  simp only [stackPairs] at key
  rw [map_pairOf_exposeTopList] at key
  exact add_right_cancel key

theorem cardPairs_take_selected (t : Table) {id : StackId} {i : Nat} {t' : Table}
    (hid : id ≠ .hand) (hi : i < (t.get id).cards.length) (hh : t.in_hand.cards = [])
    (h : t.take_selected_cards_from_stack id i = some t') :
    cardPairs t' = cardPairs t := by
  unfold Table.take_selected_cards_from_stack at h
  dsimp only at h
  have hle : i ≤ (t.get id).cards.length := le_of_lt hi
  have hpos : ((t.get id).cards.drop i).length > 0 := by
    rw [List.length_drop]; omega
  rw [if_pos hle, if_pos hpos] at h
  have hhand : (t.set id { t.get id with cards := (t.get id).cards.take i }).in_hand
      = t.in_hand :=
    Table.get_set_ne t _ (show StackId.hand ≠ id from Ne.symm hid)
  rw [hhand] at h
  injection h with h
  subst h
  have key := cardPairs_set₂ t
    (a := id) (b := .hand)
    ({ t.get id with cards := (t.get id).cards.take i })
    ({ t.in_hand with cards := (t.get id).cards.drop i })
    (Ne.symm hid)
  simp only [stackPairs] at key
  have hh2 : (Table.get t .hand).cards = [] := hh
  rw [hh2] at key
  rw [show List.map pairOf (t.get id).cards
        = List.map pairOf ((t.get id).cards.take i) ++ List.map pairOf ((t.get id).cards.drop i)
      from by rw [← List.map_append, List.take_append_drop]] at key
  refine Multiset.ext.mpr fun x => ?_
  have k := congrArg (Multiset.count x) key
  simp only [← Multiset.coe_add, Multiset.count_add, List.map_nil, Multiset.coe_nil,
    Multiset.count_zero] at k ⊢
  omega

/-! ### Properties of the active-card scan and the play generator -/

theorem firstFaceUpAux_some {cs : List Card} {base j : Nat}
    (h : firstFaceUpAux cs base = some j) :
    base ≤ j ∧ j - base < cs.length ∧ ∃ c, cs.get? (j - base) = some c ∧ c.face_up = true := by
  induction cs generalizing base with
  | nil => simp [firstFaceUpAux] at h
  | cons c rest ih =>
    rw [firstFaceUpAux] at h
    split at h
    · rename_i hface
      injection h with h
      subst h
      exact ⟨le_refl _, by simp, c, by simp, hface⟩
    · obtain ⟨h1, h2, c', hc', hface'⟩ := ih h
      refine ⟨by omega, by simp only [List.length_cons]; omega, c', ?_, hface'⟩
      have hj : j - base = (j - (base + 1)) + 1 := by omega
      rw [hj]
      simpa using hc'

theorem next_active_card_lt {st : Stack} {start : Option Nat} {i : Nat}
    (h : st.next_active_card start = some i) : i < st.cards.length := by
  simp only [Stack.next_active_card] at h
  split at h
  · exact absurd h (by simp)
  · rename_i hne
    have hnil : st.cards ≠ [] := fun hc => hne (Or.inl hc)
    have hlen : 0 < st.cards.length := List.length_pos.mpr hnil
    split at h
    · split at h <;>
        first
          | (injection h with h; omega)
          | (obtain ⟨h1, h2, c, hc, hup⟩ := firstFaceUpAux_some h
             rw [List.length_drop] at h2
             omega)
    · exact absurd h (by simp)

theorem next_active_card_face_up {st : Stack}
    (hty : st.stack_type = .tableau ∨ st.stack_type = .hand) {start : Option Nat} {i : Nat}
    (h : st.next_active_card start = some i) :
    ∃ c, st.cards.get? i = some c ∧ c.face_up = true := by
  simp only [Stack.next_active_card] at h
  split at h
  · exact absurd h (by simp)
  · split at h
    · have haux : ∃ base, firstFaceUpAux (st.cards.drop base) base = some i := by
        rcases hty with hty | hty <;> rw [hty] at h <;> exact ⟨_, h⟩
      obtain ⟨base, haux⟩ := haux
      obtain ⟨h1, h2, c, hc, hup⟩ := firstFaceUpAux_some haux
      refine ⟨c, ?_, hup⟩
      rw [List.get?_drop] at hc
      rwa [show base + (i - base) = i from by omega] at hc
    · exact absurd h (by simp)

theorem mem_sourcesFromAux {st : Stack} {fuel : Nat} {cur : Option Nat} {i : Nat}
    (h : i ∈ sourcesFromAux st fuel cur) :
    ∃ c, st.next_active_card c = some i := by
  induction fuel generalizing cur with
  | zero => simp [sourcesFromAux] at h
  | succ fuel ih =>
    rw [sourcesFromAux] at h
    split at h
    · rename_i j hj
      rcases List.mem_cons.mp h with h | h
      · exact ⟨cur, by rw [hj, h]⟩
      · exact ih h
    · simp at h

theorem startSourceOf_eq {t : Table} {id : StackId} {s : Source}
    (h : startSourceOf t id = some s) :
    s.stack = id ∧ (t.get id).next_active_card none = some s.index := by
  unfold startSourceOf at h
  split at h
  · rename_i i hi
    split at h
    · injection h with h
      subst h
      exact ⟨rfl, hi⟩
    · exact absurd h (by simp)
  · exact absurd h (by simp)

theorem findFirstSome_eq_some {α β : Type} {f : α → Option β} {l : List α} {b : β}
    (h : findFirstSome f l = some b) : ∃ a ∈ l, f a = some b := by
  induction l with
  | nil => simp [findFirstSome] at h
  | cons a rest ih =>
    rw [findFirstSome] at h
    split at h
    · rename_i b' hb
      injection h with h
      subst h
      exact ⟨a, List.mem_cons_self a rest, hb⟩
    · obtain ⟨a', ha', hfa⟩ := ih h
      exact ⟨a', List.mem_cons_of_mem a ha', hfa⟩

theorem findStart_eq {t : Table} {s : Source} (h : findStart t = some s) :
    startSourceOf t s.stack = some s := by
  obtain ⟨id, _, hid⟩ := findFirstSome_eq_some h
  have := (startSourceOf_eq hid).1
  subst this
  exact hid

theorem mem_activeSources {t : Table} {s : Source} (h : s ∈ activeSources t) :
    ∃ c, (t.get s.stack).next_active_card c = some s.index := by
  unfold activeSources at h
  split at h
  · simp at h
  · rename_i s0 hs0
    rcases List.mem_append.mp h with h | h
    · rcases List.mem_cons.mp h with h | h
      · subst h
        exact ⟨none, (startSourceOf_eq (findStart_eq hs0)).2⟩
      · obtain ⟨i, hi, rfl⟩ := List.mem_map.mp h
        obtain ⟨c, hc⟩ := mem_sourcesFromAux hi
        exact ⟨c, hc⟩
    · obtain ⟨id, hid, hmem⟩ := List.mem_flatMap.mp h
      obtain ⟨i, hi, rfl⟩ := List.mem_map.mp hmem
      obtain ⟨c, hc⟩ := mem_sourcesFromAux hi
      exact ⟨c, hc⟩

theorem activeSources_index_lt {t : Table} {s : Source} (h : s ∈ activeSources t) :
    s.index < (t.get s.stack).cards.length := by
  obtain ⟨c, hc⟩ := mem_activeSources h
  exact next_active_card_lt hc

theorem activeSources_ne_hand {t : Table} {s : Source} (hh : t.in_hand.cards = [])
    (h : s ∈ activeSources t) : s.stack ≠ .hand := by
  intro heq
  obtain ⟨c, hc⟩ := mem_activeSources h
  rw [heq] at hc
  have hget : Table.get t .hand = t.in_hand := rfl
  rw [hget] at hc
  simp [Stack.next_active_card, hh] at hc

theorem cardPlays_shape {t : Table} {src : Source} {p : Play} (h : p ∈ cardPlays t src) :
    ∃ card tgt, (t.get src.stack).cards.get? src.index = some card ∧ tgt ∈ targetIds ∧
      p = Play.moveCards src tgt ∧
      (t.get tgt).can_play_card card ((t.get src.stack).cards.length - src.index) := by
  unfold cardPlays at h
  split at h
  · simp at h
  · rename_i card hcard
    obtain ⟨tgt, htgt, hf⟩ := List.mem_filterMap.mp h
    split at hf
    · rename_i hcan
      injection hf with hf
      subst hf
      exact ⟨card, tgt, hcard, htgt, rfl, hcan⟩
    · exact absurd hf (by simp)

/-- Structure of every play the generator emits. -/
theorem mem_generatePlays {t : Table} {p : Play} (h : p ∈ generatePlays t) :
    (p = .drawFromStock ∧ t.has_cards_in_stock) ∨
    (p = .recycleWaste ∧ ¬t.has_cards_in_stock ∧ t.has_cards_in_waste) ∨
    (∃ src tgt card, p = .moveCards src tgt ∧ src ∈ activeSources t ∧ tgt ∈ targetIds ∧
      (t.get src.stack).cards.get? src.index = some card ∧
      (t.get tgt).can_play_card card ((t.get src.stack).cards.length - src.index)) := by
  unfold generatePlays at h
  rcases List.mem_append.mp h with h | h
  · split at h
    · rename_i hs
      left
      exact ⟨List.mem_singleton.mp h, hs⟩
    · split at h
      · rename_i hs hw
        right; left
        exact ⟨List.mem_singleton.mp h, hs, hw⟩
      · simp at h
  · right; right
    obtain ⟨src, hsrc, hmem⟩ := List.mem_flatMap.mp h
    obtain ⟨card, tgt, h1, h2, h3, h4⟩ := cardPlays_shape hmem
    exact ⟨src, tgt, card, h3, hsrc, h2, h1, h4⟩

theorem targetIds_ne_hand : ∀ id ∈ targetIds, id ≠ StackId.hand := by decide

theorem setup_not_mem_generatePlays (t : Table) : Play.setup ∉ generatePlays t := by
  intro h
  rcases mem_generatePlays h with ⟨h, _⟩ | ⟨h, _⟩ | ⟨_, _, _, h, _⟩ <;> exact Play.noConfusion h

/-- Every generated play applies without a panic. -/
theorem makeMove_isSome_of_mem {t : Table} {p : Play} (h : p ∈ generatePlays t) :
    (makeMove p t).isSome := by
  rcases mem_generatePlays h with ⟨rfl, hs⟩ | ⟨rfl, hs, _⟩ | ⟨src, tgt, card, rfl, hsrc, _, _, _⟩
  · simp [makeMove, hs]
  · simp [makeMove, hs]
  · have hlt := activeSources_index_lt hsrc
    simp only [makeMove, Table.take_selected_cards_from_stack]
    rw [if_pos (le_of_lt hlt)]
    split <;> simp

/-! ### The Hand stays empty across applied generated plays -/

theorem in_hand_set_ne (t : Table) {a : StackId} (st : Stack) (ha : StackId.hand ≠ a) :
    (t.set a st).in_hand = t.in_hand :=
  Table.get_set_ne t st ha

theorem dealOne_in_hand (t : Table) : (dealOne t).in_hand = t.in_hand := by
  unfold dealOne
  split <;> rfl

theorem dealN_in_hand (n : Nat) (t : Table) : (dealN n t).in_hand = t.in_hand := by
  induction n generalizing t with
  | zero => rfl
  | succ n ih => rw [dealN, ih, dealOne_in_hand]

theorem deal_from_stock_in_hand (t : Table) :
    t.deal_from_stock.in_hand = t.in_hand := by
  unfold Table.deal_from_stock
  dsimp only
  split
  · rfl
  · exact dealN_in_hand _ t

theorem put_hand_in_hand (t : Table) (src : Source) {id : StackId}
    (hid : StackId.hand ≠ id) (hsrc : StackId.hand ≠ src.stack) :
    (t.put_hand_on_stack src id).1.in_hand.cards = [] := by
  unfold Table.put_hand_on_stack Table.expose_top_card_of_stack
  dsimp only
  rw [in_hand_set_ne _ _ hsrc, in_hand_set_ne _ _ hid]
  rfl

theorem genStep_hand_empty {t t' : Table} (hh : t.in_hand.cards = [])
    (h : GenStep t t') : t'.in_hand.cards = [] := by
  obtain ⟨p, hp, hmk⟩ := h
  rcases mem_generatePlays hp with ⟨rfl, hs⟩ | ⟨rfl, hs, _⟩ | ⟨src, tgt, card, rfl, hsrc, htgt, _, _⟩
  · rw [makeMove, if_pos hs] at hmk
    injection hmk with hmk
    subst hmk
    rw [deal_from_stock_in_hand]
    exact hh
  · rw [makeMove, if_neg hs] at hmk
    injection hmk with hmk
    subst hmk
    rw [Table.recycle_waste, deal_from_stock_in_hand]
    exact hh
  · rw [makeMove] at hmk
    cases htake : t.take_selected_cards_from_stack src.stack src.index with
    | none => rw [htake] at hmk; exact absurd hmk (by simp)
    | some t1 =>
      rw [htake] at hmk
      simp only [Option.map] at hmk
      injection hmk with hmk
      subst hmk
      exact put_hand_in_hand t1 src
        (Ne.symm (targetIds_ne_hand tgt htgt))
        (Ne.symm (activeSources_ne_hand hh hsrc))

theorem cardPairs_put_hand (t : Table) (src : Source) {id : StackId} (hid : id ≠ .hand) :
    cardPairs (t.put_hand_on_stack src id).1 = cardPairs t := by
  unfold Table.put_hand_on_stack
  dsimp only
  rw [cardPairs_expose]
  have hget : (t.set .hand { t.in_hand with cards := [] }).get id = t.get id :=
    Table.get_set_ne t _ hid
  rw [hget]
  have key := cardPairs_set₂ t
    (a := .hand) (b := id)
    ({ t.in_hand with cards := [] })
    ({ t.get id with cards := (t.get id).cards ++ t.in_hand.cards })
    hid
  simp only [stackPairs] at key
  have hh2 : (Table.get t .hand).cards = t.in_hand.cards := rfl
  rw [hh2] at key
  rw [show List.map pairOf ((Table.get t id).cards ++ t.in_hand.cards)
        = List.map pairOf (Table.get t id).cards ++ List.map pairOf t.in_hand.cards
      from List.map_append _ _ _] at key
  refine Multiset.ext.mpr fun x => ?_
  have k := congrArg (Multiset.count x) key
  simp only [← Multiset.coe_add, Multiset.count_add, List.map_nil, Multiset.coe_nil,
    Multiset.count_zero] at k ⊢
  omega

/-! ### Conservation across one applied generated play -/

theorem cardPairs_genStep {t t' : Table} (hh : t.in_hand.cards = [])
    (h : GenStep t t') : cardPairs t' = cardPairs t := by
  obtain ⟨p, hp, hmk⟩ := h
  rcases mem_generatePlays hp with ⟨rfl, hs⟩ | ⟨rfl, hs, _⟩ | ⟨src, tgt, card, rfl, hsrc, htgt, _, _⟩
  · rw [makeMove, if_pos hs] at hmk
    injection hmk with hmk
    subst hmk
    exact cardPairs_deal_from_stock t
  · rw [makeMove, if_neg hs] at hmk
    injection hmk with hmk
    subst hmk
    rw [Table.recycle_waste]
    exact cardPairs_deal_from_stock t
  · rw [makeMove] at hmk
    cases htake : t.take_selected_cards_from_stack src.stack src.index with
    | none => rw [htake] at hmk; exact absurd hmk (by simp)
    | some t1 =>
      rw [htake] at hmk
      simp only [Option.map] at hmk
      injection hmk with hmk
      subst hmk
      rw [cardPairs_put_hand t1 src (targetIds_ne_hand tgt htgt)]
      exact cardPairs_take_selected t (activeSources_ne_hand hh hsrc)
        (activeSources_index_lt hsrc) hh htake

/-! ### Well-typed tables: every slot keeps its id and type -/

/-- The `StackType` each slot of a `Table` carries. -/
def stackTypeOf : StackId → StackType
  | .stock => .stock
  | .waste => .waste
  | .foundation1 | .foundation2 | .foundation3 | .foundation4 => .foundation
  | .tableau1 | .tableau2 | .tableau3 | .tableau4 | .tableau5 | .tableau6 | .tableau7 => .tableau
  | .hand => .hand

/-- A table whose stack slots carry their construction-time ids and types
(as every table built by `Table::new` and its mutation primitives does). -/
def WellTyped (t : Table) : Prop :=
  ∀ id, (t.get id).stack_id = id ∧ (t.get id).stack_type = stackTypeOf id

instance (t : Table) : Decidable (WellTyped t) :=
  decidable_of_iff
    (∀ id ∈ allStackIds, (t.get id).stack_id = id ∧ (t.get id).stack_type = stackTypeOf id)
    ⟨fun h id => h id (by cases id <;> simp [allStackIds]), fun h id _ => h id⟩

theorem wellTyped_set {t : Table} (hw : WellTyped t) (a : StackId) (cs : List Card) :
    WellTyped (t.set a { t.get a with cards := cs }) := by
  intro id
  by_cases hid : id = a
  · subst hid
    rw [Table.get_set_same]
    exact ⟨(hw id).1, (hw id).2⟩
  · rw [Table.get_set_ne t _ hid]
    exact hw id

theorem wellTyped_dealOne {t : Table} (hw : WellTyped t) : WellTyped (dealOne t) := by
  unfold dealOne
  split
  · exact hw
  · exact wellTyped_set (wellTyped_set hw .stock _) .waste _

theorem wellTyped_dealN {t : Table} (hw : WellTyped t) (n : Nat) : WellTyped (dealN n t) := by
  induction n generalizing t with
  | zero => exact hw
  | succ n ih => exact ih (wellTyped_dealOne hw)

theorem wellTyped_deal_from_stock {t : Table} (hw : WellTyped t) :
    WellTyped t.deal_from_stock := by
  unfold Table.deal_from_stock
  dsimp only
  split
  · exact wellTyped_set (wellTyped_set hw .stock _) .waste _
  · exact wellTyped_dealN hw _

theorem wellTyped_take {t t' : Table} {id : StackId} {i : Nat} (hw : WellTyped t)
    (h : t.take_selected_cards_from_stack id i = some t') : WellTyped t' := by
  unfold Table.take_selected_cards_from_stack at h
  dsimp only at h
  split at h
  · split at h
    · injection h with h
      subst h
      exact wellTyped_set (wellTyped_set hw id _) .hand _
    · injection h with h
      subst h
      exact wellTyped_set hw id _
  · exact absurd h (by simp)

theorem wellTyped_put {t : Table} (hw : WellTyped t) (src : Source) (id : StackId) :
    WellTyped (t.put_hand_on_stack src id).1 := by
  unfold Table.put_hand_on_stack Table.expose_top_card_of_stack
  dsimp only
  exact wellTyped_set (wellTyped_set (wellTyped_set hw .hand _) id _) src.stack _

theorem wellTyped_makeMove {t t' : Table} {p : Play} (hw : WellTyped t)
    (h : makeMove p t = some t') : WellTyped t' := by
  cases p with
  | setup => exact absurd h (by simp [makeMove])
  | drawFromStock =>
    rw [makeMove] at h
    split at h
    · injection h with h
      subst h
      exact wellTyped_deal_from_stock hw
    · exact absurd h (by simp)
  | recycleWaste =>
    rw [makeMove] at h
    split at h
    · exact absurd h (by simp)
    · injection h with h
      subst h
      exact wellTyped_deal_from_stock hw
  | moveCards src tgt =>
    rw [makeMove] at h
    cases htake : t.take_selected_cards_from_stack src.stack src.index with
    | none => rw [htake] at h; exact absurd h (by simp)
    | some t1 =>
      rw [htake] at h
      simp only [Option.map] at h
      injection h with h
      subst h
      exact wellTyped_put (wellTyped_take hw htake) src tgt

/-! ### The modelled shuffle permutes the deck -/

theorem cons_eraseIdx_perm {l : List Card} {i : Nat} (h : i < l.length) :
    (l.get ⟨i, h⟩ :: l.eraseIdx i).Perm l := by
  rw [List.eraseIdx_eq_take_drop_succ]
  conv_rhs => rw [← List.take_append_drop i l, List.drop_eq_getElem_cons h]
  exact List.perm_middle.symm

theorem shuffleAux_perm (fuel : Nat) : ∀ (s : Nat) (l : List Card), fuel = l.length →
    (shuffleAux fuel s l).Perm l := by
  induction fuel with
  | zero =>
    intro s l hf
    cases l with
    | nil => simp [shuffleAux]
    | cons x xs => simp at hf
  | succ fuel ih =>
    intro s l hf
    cases l with
    | nil => simp at hf
    | cons x xs =>
      rw [shuffleAux]
      have hk : s % (x :: xs).length < (x :: xs).length :=
        Nat.mod_lt _ (by simp)
      rw [List.get?_eq_get hk]
      have hlen : fuel = ((x :: xs).eraseIdx (s % (x :: xs).length)).length := by
        have := List.length_eraseIdx_add_one (l := x :: xs) (i := s % (x :: xs).length) hk
        omega
      exact ((ih (lcg s) _ hlen).cons _).trans (cons_eraseIdx_perm hk)

theorem make_deck_perm (seed : Nat) : (make_deck seed).Perm fullDeck :=
  shuffleAux_perm _ _ _ rfl

theorem wellTyped_new (seed : Nat) : WellTyped (Table.new seed) := by
  intro id
  cases id <;> exact ⟨rfl, rfl⟩

theorem pairs_split_at (cs : List Card) (n : Nat) :
    ((cs.map pairOf : List (Suit × Rank)) : Multiset (Suit × Rank))
      = ((cs.take n).map pairOf : List (Suit × Rank))
        + ((cs.drop n).map pairOf : List (Suit × Rank)) := by
  conv_lhs => rw [← List.take_append_drop n cs]
  rw [List.map_append, ← Multiset.coe_add]

theorem cardPairs_new (seed : Nat) : cardPairs (Table.new seed) = fullDeckPairs := by
  unfold Table.new
  simp only [takeTableau]
  simp only [cardPairs, allStackIds, List.map_cons, List.map_nil, List.sum_cons, List.sum_nil,
    Table.get]
  simp only [stackPairs, map_pairOf_flipTopList]
  set cs0 := make_deck seed with hcs0
  set cs1 := List.take (cs0.length - 1) cs0 with hcs1
  set cs2 := List.take (cs1.length - 2) cs1 with hcs2
  set cs3 := List.take (cs2.length - 3) cs2 with hcs3
  set cs4 := List.take (cs3.length - 4) cs3 with hcs4
  set cs5 := List.take (cs4.length - 5) cs4 with hcs5
  set cs6 := List.take (cs5.length - 6) cs5 with hcs6
  set cs7 := List.take (cs6.length - 7) cs6 with hcs7
  have hfd : fullDeckPairs = ((cs0.map pairOf : List (Suit × Rank)) : Multiset (Suit × Rank)) := by
    rw [fullDeckPairs]
    exact (Multiset.coe_eq_coe.mpr ((make_deck_perm seed).map pairOf)).symm
  have e1 := pairs_split_at cs0 (cs0.length - 1)
  have e2 := pairs_split_at cs1 (cs1.length - 2)
  have e3 := pairs_split_at cs2 (cs2.length - 3)
  have e4 := pairs_split_at cs3 (cs3.length - 4)
  have e5 := pairs_split_at cs4 (cs4.length - 5)
  have e6 := pairs_split_at cs5 (cs5.length - 6)
  have e7 := pairs_split_at cs6 (cs6.length - 7)
  rw [← hcs1] at e1
  rw [← hcs2] at e2
  rw [← hcs3] at e3
  rw [← hcs4] at e4
  rw [← hcs5] at e5
  rw [← hcs6] at e6
  rw [← hcs7] at e7
  rw [hfd]
  refine Multiset.ext.mpr fun x => ?_
  have k1 := congrArg (Multiset.count x) e1
  have k2 := congrArg (Multiset.count x) e2
  have k3 := congrArg (Multiset.count x) e3
  have k4 := congrArg (Multiset.count x) e4
  have k5 := congrArg (Multiset.count x) e5
  have k6 := congrArg (Multiset.count x) e6
  have k7 := congrArg (Multiset.count x) e7
  simp only [Multiset.count_add, List.map_nil, Multiset.coe_nil, Multiset.count_zero]
    at k1 k2 k3 k4 k5 k6 k7 ⊢
  omega

/-! ### The reachability invariant -/

/-- The invariant carried along generator-driven play: well-typed slots, an
empty hand between moves, and the full deck's pairs on the table. -/
def Inv (t : Table) : Prop :=
  WellTyped t ∧ t.in_hand.cards = [] ∧ cardPairs t = fullDeckPairs

theorem inv_new (seed : Nat) : Inv (Table.new seed) :=
  ⟨wellTyped_new seed, rfl, cardPairs_new seed⟩

theorem inv_genStep {t t' : Table} (hi : Inv t) (h : GenStep t t') : Inv t' := by
  obtain ⟨hw, hh, hc⟩ := hi
  obtain ⟨p, hp, hmk⟩ := h
  exact ⟨wellTyped_makeMove hw hmk, genStep_hand_empty hh ⟨p, hp, hmk⟩,
    (cardPairs_genStep hh ⟨p, hp, hmk⟩).trans hc⟩

theorem genReachable_inv {seed : Nat} {t : Table} (h : GenReachable seed t) : Inv t := by
  induction h with
  | init => exact inv_new _
  | step _ hstep ih => exact inv_genStep ih hstep

/-! ### Dealing and recycling: the round trip of claim C2 -/

theorem dealN_spec (n : Nat) : ∀ t : Table, n ≤ t.stock.cards.length →
    (dealN n t).stock.cards = t.stock.cards.take (t.stock.cards.length - n) ∧
    (dealN n t).waste.cards = t.waste.cards
      ++ ((t.stock.cards.drop (t.stock.cards.length - n)).reverse.map
            fun c => { c with face_up := true }) := by
  induction n with
  | zero =>
    intro t _
    refine ⟨?_, ?_⟩
    · simp [dealN]
    · simp [dealN, List.drop_length]
  | succ n ih =>
    intro t hn
    have hnil : t.stock.cards ≠ [] := by
      intro hcon
      rw [hcon] at hn
      simp at hn
    cases hc : t.stock.cards.getLast? with
    | none => exact absurd (List.getLast?_eq_none_iff.mp hc) hnil
    | some c =>
      have hsplit : t.stock.cards = t.stock.cards.dropLast ++ [c] :=
        (List.dropLast_append_getLast? c hc).symm
      have hlen : t.stock.cards.dropLast.length = t.stock.cards.length - 1 := by simp
      have hpos : 0 < t.stock.cards.length := List.length_pos.mpr hnil
      rw [dealN]
      have hone : (dealOne t).stock.cards = t.stock.cards.dropLast ∧
          (dealOne t).waste.cards = t.waste.cards ++ [{ c with face_up := true }] := by
        unfold dealOne
        rw [hc]
        exact ⟨rfl, rfl⟩
      have hn' : n ≤ (dealOne t).stock.cards.length := by
        rw [hone.1, hlen]; omega
      obtain ⟨ihs, ihw⟩ := ih (dealOne t) hn'
      rw [hone.1, hlen] at ihs
      rw [hone.2, hone.1, hlen] at ihw
      have hk : t.stock.cards.length - (n + 1) = t.stock.cards.length - 1 - n := by omega
      have hkle : t.stock.cards.length - 1 - n ≤ t.stock.cards.dropLast.length := by
        rw [hlen]; omega
      constructor
      · rw [ihs, hk]
        set m := t.stock.cards.length - 1 - n with hm
        conv_rhs => rw [hsplit]
        rw [List.take_append_eq_append_take]
        rw [show m - t.stock.cards.dropLast.length = 0 from by omega]
        simp
      · rw [ihw, hk]
        set m := t.stock.cards.length - 1 - n with hm
        conv_rhs => rw [hsplit]
        rw [List.drop_append_eq_append_drop]
        rw [show m - t.stock.cards.dropLast.length = 0 from by omega]
        rw [List.drop_zero, List.reverse_append, List.reverse_singleton,
          List.singleton_append, List.map_cons, List.append_assoc, List.singleton_append]

theorem deal_from_stock_spec {t : Table} (h : t.stock.cards ≠ []) :
    t.deal_from_stock.stock.cards
      = t.stock.cards.take (t.stock.cards.length - min 3 t.stock.cards.length) ∧
    t.deal_from_stock.waste.cards = t.waste.cards
      ++ ((t.stock.cards.drop (t.stock.cards.length - min 3 t.stock.cards.length)).reverse.map
            fun c => { c with face_up := true }) := by
  have hpos : 0 < t.stock.cards.length := List.length_pos.mpr h
  unfold Table.deal_from_stock
  dsimp only
  rw [if_neg (by omega)]
  exact dealN_spec _ t (Nat.min_le_right _ _)

theorem deal_from_stock_stock_lt {t : Table} (h : t.stock.cards ≠ []) :
    t.deal_from_stock.stock.cards.length < t.stock.cards.length := by
  have hpos : 0 < t.stock.cards.length := List.length_pos.mpr h
  rw [(deal_from_stock_spec h).1, List.length_take]
  omega

/-- "Repeatedly calling `deal_from_stock` until the Stock is empty": the
`while work_table.has_cards_in_stock()` loop of `test_recycle_waste`. -/
def Table.dealUntilEmpty (t : Table) : Table :=
  if h : t.stock.cards = [] then t
  else Table.dealUntilEmpty t.deal_from_stock
termination_by t.stock.cards.length
decreasing_by exact deal_from_stock_stock_lt h

theorem dealUntilEmpty_spec (t : Table) :
    t.dealUntilEmpty.stock.cards = [] ∧
    t.dealUntilEmpty.waste.cards = t.waste.cards
      ++ (t.stock.cards.reverse.map fun c => { c with face_up := true }) := by
  suffices H : ∀ (L : Nat) (t : Table), t.stock.cards.length ≤ L →
      t.dealUntilEmpty.stock.cards = [] ∧
      t.dealUntilEmpty.waste.cards = t.waste.cards
        ++ (t.stock.cards.reverse.map fun c => { c with face_up := true }) from
    H _ t le_rfl
  intro L
  induction L with
  | zero =>
    intro t h0
    have hnil : t.stock.cards = [] := by
      cases hc : t.stock.cards with
      | nil => rfl
      | cons a l => rw [hc] at h0; simp at h0
    rw [Table.dealUntilEmpty, dif_pos hnil]
    simp [hnil]
  | succ L ih =>
    intro t hle
    by_cases hnil : t.stock.cards = []
    · rw [Table.dealUntilEmpty, dif_pos hnil]
      simp [hnil]
    · rw [Table.dealUntilEmpty, dif_neg hnil]
      obtain ⟨hs, hw⟩ := deal_from_stock_spec hnil
      have hlen : t.deal_from_stock.stock.cards.length ≤ L := by
        have := deal_from_stock_stock_lt hnil
        omega
      obtain ⟨ih1, ih2⟩ := ih t.deal_from_stock hlen
      refine ⟨ih1, ?_⟩
      rw [ih2, hw, hs, List.append_assoc]
      congr 1
      rw [← List.map_append, ← List.reverse_append, List.take_append_drop]

theorem recycle_waste_spec {t : Table} (h : t.stock.cards = []) :
    t.recycle_waste.stock.cards
      = (t.waste.cards.map fun c => { c with face_up := false }).reverse ∧
    t.recycle_waste.waste.cards = [] := by
  unfold Table.recycle_waste Table.deal_from_stock
  dsimp only
  rw [if_pos (by rw [h]; rfl)]
  exact ⟨rfl, rfl⟩

theorem c2_core (t : Table) (hw : t.waste.cards = []) :
    t.dealUntilEmpty.recycle_waste.stock.cards
      = t.stock.cards.map (fun c => { c with face_up := false }) ∧
    t.dealUntilEmpty.recycle_waste.waste.cards = [] ∧
    t.dealUntilEmpty.recycle_waste.stock.cards
      = (t.dealUntilEmpty.waste.cards.map fun c => { c with face_up := false }).reverse := by
  obtain ⟨h1, h2⟩ := dealUntilEmpty_spec t
  obtain ⟨r1, r2⟩ := recycle_waste_spec h1
  refine ⟨?_, r2, r1⟩
  rw [r1, h2, hw, List.nil_append, List.map_map]
  simp only [Function.comp_def]
  rw [← List.map_reverse, List.reverse_reverse]

/-! ### Acceptance characterizations (C5, C6) -/

/-- C5: what a Foundation stack accepts. -/
theorem claim_C5_foundation_accept (st : Stack) (c : Card) (n : Nat)
    (hty : st.stack_type = .foundation) :
    st.can_play_card c n ↔
      (n = 1 ∧
        ((st.cards = [] ∧ c.rank = .ace ∧ foundationSuit st.stack_id = some c.suit) ∨
         (st.cards ≠ [] ∧ ∃ top, st.cards.getLast? = some top ∧ c.suit = top.suit ∧
           c.rank.val = top.rank.val + 1))) := by
  unfold Stack.can_play_card
  rw [hty]
  unfold Stack.foundation_can_accept_card
  constructor
  · rintro ⟨hn, hacc⟩
    refine ⟨hn, ?_⟩
    by_cases hnil : st.cards = []
    · rw [if_pos hnil] at hacc
      exact Or.inl ⟨hnil, hacc⟩
    · rw [if_neg hnil] at hacc
      cases htop : st.top_card with
      | none =>
        rw [htop] at hacc
        exact hacc.elim
      | some top =>
        rw [htop] at hacc
        refine Or.inr ⟨hnil, top, htop, hacc.1, ?_⟩
        have hb := hacc.2
        unfold Card.is_one_below at hb
        omega
  · rintro ⟨hn, hor⟩
    refine ⟨hn, ?_⟩
    rcases hor with ⟨hnil, hace, hsuit⟩ | ⟨hnil, top, htop, hsuit, hrank⟩
    · rw [if_pos hnil]
      exact ⟨hace, hsuit⟩
    · rw [if_neg hnil]
      have htop' : st.top_card = some top := htop
      rw [htop']
      refine ⟨hsuit, ?_⟩
      unfold Card.is_one_below
      omega

/-- C6: what a Tableau stack accepts. -/
theorem claim_C6_tableau_accept (st : Stack) (c : Card)
    (hty : st.stack_type = .tableau) :
    st.tableau_can_accept_card c ↔
      ((st.cards = [] ∧ c.rank = .king) ∨
       (st.cards ≠ [] ∧ ∃ top, st.cards.getLast? = some top ∧
         c.suit.color ≠ top.suit.color ∧ c.rank.val + 1 = top.rank.val)) := by
  unfold Stack.tableau_can_accept_card
  cases htop : st.top_card with
  | none =>
    have hnil : st.cards = [] := List.getLast?_eq_none_iff.mp htop
    constructor
    · intro hk
      exact Or.inl ⟨hnil, hk⟩
    · rintro (⟨_, hk⟩ | ⟨hne, _⟩)
      · exact hk
      · exact absurd hnil hne
  | some top =>
    have hne : st.cards ≠ [] := by
      intro hc
      rw [Stack.top_card, hc] at htop
      simp at htop
    constructor
    · rintro ⟨hcol, hbelow⟩
      refine Or.inr ⟨hne, top, htop, ?_, ?_⟩
      · intro heq
        exact hcol heq.symm
      · unfold Card.is_one_below at hbelow
        omega
    · rintro (⟨hnil, _⟩ | ⟨_, top', htop', hcol, hrank⟩)
      · exact absurd hnil hne
      · have htt : top' = top := by
          have h2 := htop
          rw [Stack.top_card] at h2
          rw [htop'] at h2
          injection h2
        subst htt
        refine ⟨?_, ?_⟩
        · intro heq
          exact hcol heq.symm
        · unfold Card.is_one_below
          omega

/-! ### Panic behavior (C9), take semantics (C10), filter behavior (C8) -/

/-- C9: `make_move` panics (modelled as `none`) on `DrawFromStock` with an
empty Stock, on `RecycleWaste` with a non-empty Stock, and always on
`Setup`; every play the generator returns applies without a panic. -/
theorem claim_C9_make_move_panics (t : Table) :
    (t.stock.cards = [] → makeMove .drawFromStock t = none) ∧
    (t.stock.cards ≠ [] → makeMove .recycleWaste t = none) ∧
    makeMove .setup t = none ∧
    (∀ p ∈ generatePlays t, (makeMove p t).isSome) := by
  refine ⟨?_, ?_, rfl, fun p hp => makeMove_isSome_of_mem hp⟩
  · intro h
    rw [makeMove, if_neg]
    simp [Table.has_cards_in_stock, h]
  · intro h
    rw [makeMove, if_pos]
    exact List.length_pos.mpr h

theorem take_selected_spec (t : Table) (id : StackId) (i : Nat)
    (hi : i < (t.get id).cards.length) :
    ∃ t', t.take_selected_cards_from_stack id i = some t' ∧
      t'.in_hand.cards = (t.get id).cards.drop i ∧
      (id ≠ .hand → (t'.get id).cards = (t.get id).cards.take i) ∧
      (∀ j, j ≠ id → j ≠ .hand → t'.get j = t.get j) := by
  unfold Table.take_selected_cards_from_stack
  dsimp only
  rw [if_pos (le_of_lt hi), if_pos (by rw [List.length_drop]; omega)]
  refine ⟨_, rfl, rfl, ?_, ?_⟩
  · intro hne
    rw [Table.get_set_ne _ _ hne, Table.get_set_same]
  · intro j hj1 hj2
    rw [Table.get_set_ne _ _ hj2, Table.get_set_ne _ _ hj1]

/-- C8 (amended): `filter_play` rejects a `MoveCards` play whose source is a
Foundation whenever its target is not itself a Foundation; foundation-target
plays are accepted before the source is inspected. -/
theorem claim_C8_filter_foundation_source (t : Table) (prev : List Play) (src : Source)
    (tgt : StackId) (hs : src.stack ∈ FOUNDATIONS) (ht : tgt ∉ FOUNDATIONS) :
    filterPlay t (.moveCards src tgt) prev = none := by
  obtain ⟨ss, si⟩ := src
  have hss : ss = .foundation1 ∨ ss = .foundation2 ∨ ss = .foundation3 ∨ ss = .foundation4 := by
    simpa [FOUNDATIONS] using hs
  rcases hss with h | h | h | h <;> subst h <;> cases tgt <;>
    first
      | exact absurd (by decide) ht
      | rfl

/-! ### Concrete tables used to refute claims -/

/-- A table with the face-up run `8♠ 7♥` on Tableau1 and `8♣` on Tableau2:
the generator offers the sub-run starting at the `7♥` (index 1), which is
not Tableau1's lift point (index 0). -/
def tC3 : Table :=
  { stock := ⟨.stock, .stock, []⟩
    waste := ⟨.waste, .waste, []⟩
    in_hand := ⟨.hand, .hand, []⟩
    foundation1 := ⟨.foundation1, .foundation, []⟩
    foundation2 := ⟨.foundation2, .foundation, []⟩
    foundation3 := ⟨.foundation3, .foundation, []⟩
    foundation4 := ⟨.foundation4, .foundation, []⟩
    tableau1 := ⟨.tableau1, .tableau, [⟨.spade, .eight, true⟩, ⟨.heart, .seven, true⟩]⟩
    tableau2 := ⟨.tableau2, .tableau, [⟨.club, .eight, true⟩]⟩
    tableau3 := ⟨.tableau3, .tableau, []⟩
    tableau4 := ⟨.tableau4, .tableau, []⟩
    tableau5 := ⟨.tableau5, .tableau, []⟩
    tableau6 := ⟨.tableau6, .tableau, []⟩
    tableau7 := ⟨.tableau7, .tableau, []⟩
    source := ⟨.stock, 0⟩
    target := .stock }

/-- C3 is false as stated: on `tC3` the generator offers
`MoveCards((Tableau1, 1), Tableau2)`, whose source index 1 is not
Tableau1's lift point (the first face-up card is at index 0), i.e. a
proper sub-run of the face-up run is offered as a move source. -/
theorem claim_C3_counterexample :
    Play.moveCards ⟨.tableau1, 1⟩ .tableau2 ∈ generatePlays tC3 ∧
    ¬ (tC3.get .tableau1).is_top_face_up_card 1 ∧
    (tC3.get .tableau1).is_top_face_up_card 0 ∧
    WellTyped tC3 := by decide

/-- C3 (amended): a Tableau source offered by the generator is always a
face-up card of its stack (though not necessarily the lift point). -/
theorem claim_C3_generator_source_face_up (t : Table) (hw : WellTyped t)
    {src : Source} {tgt : StackId}
    (h : Play.moveCards src tgt ∈ generatePlays t) (hsrc : src.stack ∈ TABLEAUX) :
    ∃ c, (t.get src.stack).cards.get? src.index = some c ∧ c.face_up = true := by
  rcases mem_generatePlays h with ⟨h', _⟩ | ⟨h', _⟩ | ⟨src', tgt', card, heq, hact, _, _, _⟩
  · exact Play.noConfusion h'
  · exact Play.noConfusion h'
  · injection heq with h1 h2
    subst h1
    subst h2
    obtain ⟨c0, hc0⟩ := mem_activeSources hact
    have hty : (t.get src.stack).stack_type = .tableau := by
      rw [(hw src.stack).2]
      have : src.stack = .tableau1 ∨ src.stack = .tableau2 ∨ src.stack = .tableau3 ∨
          src.stack = .tableau4 ∨ src.stack = .tableau5 ∨ src.stack = .tableau6 ∨
          src.stack = .tableau7 := by simpa [TABLEAUX] using hsrc
      rcases this with h | h | h | h | h | h | h <;> rw [h] <;> rfl
    exact next_active_card_face_up (Or.inl hty) hc0

/-! ### The card finder (for C4) -/

theorem findCardAux_some {l : List Card} {r : Rank} {su : Suit} {base j : Nat}
    (h : findCardAux l r su base = some j) :
    base ≤ j ∧ ∃ c, l.get? (j - base) = some c ∧ c.rank = r ∧ c.suit = su := by
  induction l generalizing base with
  | nil => simp [findCardAux] at h
  | cons c rest ih =>
    rw [findCardAux] at h
    split at h
    · rename_i hmatch
      injection h with h
      subst h
      exact ⟨le_refl _, c, by simp, hmatch.1, hmatch.2⟩
    · obtain ⟨h1, c', hc', hr, hs⟩ := ih h
      refine ⟨by omega, c', ?_, hr, hs⟩
      have hj : j - base = (j - (base + 1)) + 1 := by omega
      rw [hj]
      simpa using hc'

theorem findCardAux_none {l : List Card} {r : Rank} {su : Suit} {base : Nat}
    (h : findCardAux l r su base = none) :
    ∀ c ∈ l, ¬(c.rank = r ∧ c.suit = su) := by
  induction l generalizing base with
  | nil => intro c hc; simp at hc
  | cons c rest ih =>
    rw [findCardAux] at h
    split at h
    · exact absurd h (by simp)
    · rename_i hmatch
      intro c' hc'
      rcases List.mem_cons.mp hc' with rfl | hc'
      · exact hmatch
      · exact ih h c' hc'

theorem find_card_some {t : Table} {r : Rank} {su : Suit} {loc : Source}
    (h : t.find_card r su = some loc) :
    ∃ c, (t.get loc.stack).cards.get? loc.index = some c ∧ c.rank = r ∧ c.suit = su := by
  obtain ⟨id, _, hid⟩ := findFirstSome_eq_some h
  cases hfc : (t.get id).find_card r su with
  | none => rw [hfc] at hid; exact absurd hid (by simp)
  | some j =>
    rw [hfc] at hid
    simp only [Option.map] at hid
    injection hid with hid
    subst hid
    obtain ⟨_, c, hc, hr, hs⟩ := findCardAux_some hfc
    exact ⟨c, by simpa using hc, hr, hs⟩

theorem findFirstSome_eq_none {α β : Type} {f : α → Option β} {l : List α}
    (h : findFirstSome f l = none) : ∀ a ∈ l, f a = none := by
  induction l with
  | nil => intro a ha; simp at ha
  | cons a rest ih =>
    rw [findFirstSome] at h
    split at h
    · exact absurd h (by simp)
    · rename_i hfa
      intro a' ha'
      rcases List.mem_cons.mp ha' with rfl | ha'
      · exact hfa
      · exact ih h a' ha'

theorem find_card_none {t : Table} {r : Rank} {su : Suit}
    (h : t.find_card r su = none) :
    ∀ id, ∀ c ∈ (t.get id).cards, ¬(c.rank = r ∧ c.suit = su) := by
  intro id c hc
  have hid : id ∈ allStackIds := by cases id <;> simp [allStackIds]
  have := findFirstSome_eq_none h id hid
  have hfc : (t.get id).find_card r su = none := by
    cases hfc : (t.get id).find_card r su with
    | none => rfl
    | some j => rw [hfc] at this; simp [Option.map] at this
  exact findCardAux_none hfc c hc

/-- K♦ on the Waste with the same-suit Q♦ face-down in the Stock: the code
assigns the King move priority 1 (the Queen is outside the tableaux), not −1. -/
def tC4 : Table :=
  { stock := ⟨.stock, .stock, [⟨.diamond, .queen, false⟩]⟩
    waste := ⟨.waste, .waste, [⟨.diamond, .king, true⟩]⟩
    in_hand := ⟨.hand, .hand, []⟩
    foundation1 := ⟨.foundation1, .foundation, []⟩
    foundation2 := ⟨.foundation2, .foundation, []⟩
    foundation3 := ⟨.foundation3, .foundation, []⟩
    foundation4 := ⟨.foundation4, .foundation, []⟩
    tableau1 := ⟨.tableau1, .tableau, []⟩
    tableau2 := ⟨.tableau2, .tableau, []⟩
    tableau3 := ⟨.tableau3, .tableau, []⟩
    tableau4 := ⟨.tableau4, .tableau, []⟩
    tableau5 := ⟨.tableau5, .tableau, []⟩
    tableau6 := ⟨.tableau6, .tableau, []⟩
    tableau7 := ⟨.tableau7, .tableau, []⟩
    source := ⟨.stock, 0⟩
    target := .stock }

/-- C4 is false as stated: on `tC4` the same-suit Queen (Q♦) exists on the
table and is not face-up, yet the Waste → Tableau King move is scored
`(5, 1)`, not priority −1 — the face-flag cases apply only when the Queen
is found in a Tableau. -/
theorem claim_C4_counterexample :
    Play.moveCards ⟨.waste, 0⟩ .tableau1 ∈ generatePlays tC4 ∧
    (tC4.get .stock).cards.get? 0 = some ⟨.diamond, .queen, false⟩ ∧
    (∀ id, ∀ c ∈ (tC4.get id).cards, c.rank = .queen ∧ c.suit = .diamond → c.face_up = false) ∧
    weightedPlay (.moveCards ⟨.waste, 0⟩ .tableau1) tC4 = (5, 1) :=
  ⟨by decide, rfl, fun id => by cases id <;> decide, by decide⟩

/-- C4 (amended): the heuristic for a Waste → Tableau King move.  Score is
always 5; priority is 99 when no same-suit Queen exists anywhere, and when
`find_card` locates the Queen the priority depends on its face flag only
when the Queen sits in a Tableau — anywhere else the priority is 1. -/
theorem claim_C4_waste_king_heuristic (t : Table) (src : Source) (tgt : StackId) (card : Card)
    (hsrc : src.stack = .waste) (htgt : tgt ∈ TABLEAUX)
    (hcard : (t.get src.stack).cards.get? src.index = some card)
    (hking : card.rank = .king) :
    (weightedPlay (.moveCards src tgt) t).1 = 5 ∧
    ((¬ ∃ id c, c ∈ (t.get id).cards ∧ c.rank = .queen ∧ c.suit = card.suit) →
      (weightedPlay (.moveCards src tgt) t).2 = 99) ∧
    (∀ loc qc, t.find_card .queen card.suit = some loc → loc.stack ∈ TABLEAUX →
      (t.get loc.stack).cards.get? loc.index = some qc →
      (weightedPlay (.moveCards src tgt) t).2 = (if qc.face_up then 1 else -1)) ∧
    (∀ loc, t.find_card .queen card.suit = some loc → loc.stack ∉ TABLEAUX →
      (weightedPlay (.moveCards src tgt) t).2 = 1) := by
  obtain ⟨ss, si⟩ := src
  dsimp only at hsrc
  subst hsrc
  dsimp only at hcard
  have hcard2 : (t.get StackId.waste).cards[si]? = some card := by
    rw [← List.get?_eq_getElem?]
    exact hcard
  have hW : weightedPlay (.moveCards ⟨.waste, si⟩ tgt) t
      = (5, wasteKingPriority card t) := by
    have htgt' : tgt = .tableau1 ∨ tgt = .tableau2 ∨ tgt = .tableau3 ∨ tgt = .tableau4 ∨
        tgt = .tableau5 ∨ tgt = .tableau6 ∨ tgt = .tableau7 := by
      simpa [TABLEAUX] using htgt
    rcases htgt' with h | h | h | h | h | h | h <;> subst h <;>
      simp [weightedPlay, hcard2, hking]
  rw [hW]
  refine ⟨rfl, ?_, ?_, ?_⟩
  · intro hno
    cases hfc : t.find_card .queen card.suit with
    | none => simp [wasteKingPriority, hfc]
    | some loc =>
      obtain ⟨c, hc, hr, hs⟩ := find_card_some hfc
      exact absurd ⟨loc.stack, c, List.get?_mem hc, hr, hs⟩ hno
  · intro loc qc hfc hloc hqc
    obtain ⟨ls, li⟩ := loc
    dsimp only at hloc hqc
    have hls : ls = .tableau1 ∨ ls = .tableau2 ∨ ls = .tableau3 ∨ ls = .tableau4 ∨
        ls = .tableau5 ∨ ls = .tableau6 ∨ ls = .tableau7 := by
      simpa [TABLEAUX] using hloc
    have hqc2 : (t.get ls).cards[li]? = some qc := by
      rw [← List.get?_eq_getElem?]
      exact hqc
    rcases hls with h | h | h | h | h | h | h <;> subst h <;>
      simp [wasteKingPriority, hfc, hqc2]
  · intro loc hfc hloc
    obtain ⟨ls, li⟩ := loc
    dsimp only at hloc
    cases ls <;> first
      | exact absurd (by decide) hloc
      | simp [wasteKingPriority, hfc]

/-! ### Foundations under filtered search steps (C7) -/

theorem mem_of_getLast?_some {l : List Card} {c : Card} (h : l.getLast? = some c) : c ∈ l := by
  rw [List.getLast?_eq_getElem?, ← List.get?_eq_getElem?] at h
  exact List.get?_mem h

theorem drop_pred_singleton {l : List Card} {c : Card}
    (h : l.get? (l.length - 1) = some c) (hne : 0 < l.length) :
    l.drop (l.length - 1) = [c] := by
  have hlt : l.length - 1 < l.length := by omega
  rw [List.drop_eq_getElem_cons hlt]
  rw [List.get?_eq_getElem?] at h
  have h1 : l[l.length - 1] = c := by
    have h2 := List.getElem?_eq_getElem hlt
    rw [h2] at h
    injection h
  rw [h1, show l.length - 1 + 1 = l.length from by omega, List.drop_length]

theorem dealOne_get_other {t : Table} {id : StackId} (h1 : id ≠ .stock) (h2 : id ≠ .waste) :
    (dealOne t).get id = t.get id := by
  unfold dealOne
  split
  · rfl
  · rw [Table.get_set_ne _ _ h2, Table.get_set_ne _ _ h1]

theorem dealN_get_other {n : Nat} {t : Table} {id : StackId} (h1 : id ≠ .stock) (h2 : id ≠ .waste) :
    (dealN n t).get id = t.get id := by
  induction n generalizing t with
  | zero => rfl
  | succ n ih => rw [dealN, ih, dealOne_get_other h1 h2]

theorem deal_get_other {t : Table} {id : StackId} (h1 : id ≠ .stock) (h2 : id ≠ .waste) :
    t.deal_from_stock.get id = t.get id := by
  unfold Table.deal_from_stock
  dsimp only
  split
  · rw [Table.get_set_ne _ _ h2, Table.get_set_ne _ _ h1]
  · exact dealN_get_other h1 h2

theorem put_get_other {t : Table} {src : Source} {id j : StackId}
    (hj1 : j ≠ id) (hj2 : j ≠ .hand) (hj3 : j ≠ src.stack) :
    (t.put_hand_on_stack src id).1.get j = t.get j := by
  unfold Table.put_hand_on_stack Table.expose_top_card_of_stack
  dsimp only
  rw [Table.get_set_ne _ _ hj3, Table.get_set_ne _ _ hj1, Table.get_set_ne _ _ hj2]

theorem put_get_tgt {t : Table} {src : Source} {id : StackId}
    (h1 : id ≠ .hand) (h2 : id ≠ src.stack) :
    (t.put_hand_on_stack src id).1.get id
      = { t.get id with cards := (t.get id).cards ++ t.in_hand.cards } := by
  unfold Table.put_hand_on_stack Table.expose_top_card_of_stack
  dsimp only
  rw [Table.get_set_ne _ _ h2, Table.get_set_same, Table.get_set_ne _ _ h1]

/-- Every card sitting on a Foundation has that Foundation's pinned suit. -/
def PureFoundations (t : Table) : Prop :=
  ∀ id su, foundationSuit id = some su → ∀ c ∈ (t.get id).cards, c.suit = su

theorem foundationSuit_inj {a b : StackId} {su : Suit} (h1 : foundationSuit a = some su)
    (h2 : foundationSuit b = some su) : a = b := by
  cases a <;> cases b <;> simp [foundationSuit] at h1 h2 <;> first | rfl | (subst h1; exact Suit.noConfusion h2) | (subst h2; exact Suit.noConfusion h1)

theorem foundationSuit_isSome_of_mem {id : StackId} (h : id ∈ FOUNDATIONS) :
    ∃ su, foundationSuit id = some su := by
  rcases show id = .foundation1 ∨ id = .foundation2 ∨ id = .foundation3 ∨ id = .foundation4
      from by simpa [FOUNDATIONS] using h with h | h | h | h <;> rw [h] <;> exact ⟨_, rfl⟩

theorem stackTypeOf_foundation {id : StackId} (h : id ∈ FOUNDATIONS) :
    stackTypeOf id = .foundation := by
  rcases show id = .foundation1 ∨ id = .foundation2 ∨ id = .foundation3 ∨ id = .foundation4
      from by simpa [FOUNDATIONS] using h with h | h | h | h <;> rw [h] <;> rfl

/-- With pure, well-typed foundations no generated `MoveCards` has both a
Foundation source and a Foundation target. -/
theorem no_foundation_to_foundation {t : Table} (hw : WellTyped t) (hp : PureFoundations t)
    {src : Source} {tgt : StackId} {card : Card}
    (hsF : src.stack ∈ FOUNDATIONS) (htF : tgt ∈ FOUNDATIONS)
    (hcard : (t.get src.stack).cards.get? src.index = some card)
    (hlt : src.index < (t.get src.stack).cards.length)
    (hcan : (t.get tgt).can_play_card card ((t.get src.stack).cards.length - src.index)) :
    False := by
  obtain ⟨su, hsu⟩ := foundationSuit_isSome_of_mem hsF
  have hcsuit : card.suit = su := hp src.stack su hsu card (List.get?_mem hcard)
  have htty : (t.get tgt).stack_type = .foundation := by
    rw [(hw tgt).2]
    exact stackTypeOf_foundation htF
  unfold Stack.can_play_card at hcan
  rw [htty] at hcan
  obtain ⟨hone, hacc⟩ := hcan
  unfold Stack.foundation_can_accept_card at hacc
  by_cases hnil : (t.get tgt).cards = []
  · rw [if_pos hnil] at hacc
    obtain ⟨_, hsuit_t⟩ := hacc
    rw [(hw tgt).1, hcsuit] at hsuit_t
    have heq : tgt = src.stack := foundationSuit_inj hsuit_t hsu
    rw [heq] at hnil
    rw [hnil] at hlt
    simp at hlt
  · rw [if_neg hnil] at hacc
    cases htop : (t.get tgt).top_card with
    | none =>
      rw [htop] at hacc
      exact hacc.elim
    | some top =>
      rw [htop] at hacc
      obtain ⟨hsuit_eq, hbelow⟩ := hacc
      have htop_mem : top ∈ (t.get tgt).cards := mem_of_getLast?_some htop
      obtain ⟨su_t, hsu_t⟩ := foundationSuit_isSome_of_mem htF
      have htop_suit : top.suit = su_t := hp tgt su_t hsu_t top htop_mem
      have hsu_eq : su_t = su := by
        rw [← htop_suit, ← hsuit_eq, hcsuit]
      rw [hsu_eq] at hsu_t
      have heq : tgt = src.stack := foundationSuit_inj hsu_t hsu
      subst heq
      have hidx : src.index = (t.get src.stack).cards.length - 1 := by omega
      have htopc : top = card := by
        have h1 : (t.get src.stack).cards.getLast? = some top := htop
        rw [List.getLast?_eq_getElem?, ← List.get?_eq_getElem?] at h1
        rw [hidx] at hcard
        rw [hcard] at h1
        injection h1 with h1
        exact h1.symm
      subst htopc
      unfold Card.is_one_below at hbelow
      omega

theorem filter_some_src_not_foundation {t : Table} {src : Source} {tgt : StackId}
    {prev : List Play} (htgt : tgt ∉ FOUNDATIONS)
    (h : filterPlay t (.moveCards src tgt) prev = some (.moveCards src tgt)) :
    src.stack ∉ FOUNDATIONS := by
  intro hs
  obtain ⟨ss, si⟩ := src
  have hss : ss = .foundation1 ∨ ss = .foundation2 ∨ ss = .foundation3 ∨ ss = .foundation4 := by
    simpa [FOUNDATIONS] using hs
  rcases hss with hssi | hssi | hssi | hssi <;> subst hssi <;> cases tgt <;>
    first
      | exact htgt (by decide)
      | simp [filterPlay] at h

/-- Across one filtered search step, each Foundation is unchanged or grows
by one accepted card. -/
theorem searchStep_foundation_effect {t t' : Table}
    (hw : WellTyped t) (hp : PureFoundations t) (hh : t.in_hand.cards = [])
    (h : SearchStep t t') {fid : StackId} (hf : fid ∈ FOUNDATIONS) :
    t'.get fid = t.get fid ∨
    ∃ c, (t.get fid).can_play_card c 1 ∧ (t'.get fid).cards = (t.get fid).cards ++ [c] := by
  have hfid_ne : fid ≠ .stock ∧ fid ≠ .waste ∧ fid ≠ .hand := by
    rcases show fid = .foundation1 ∨ fid = .foundation2 ∨ fid = .foundation3 ∨ fid = .foundation4
        from by simpa [FOUNDATIONS] using hf with h1 | h1 | h1 | h1 <;> subst h1 <;>
      exact ⟨by decide, by decide, by decide⟩
  obtain ⟨p, prev, hpm, hfilter, hmk⟩ := h
  cases p with
  | setup => exact absurd hmk (by simp [makeMove])
  | drawFromStock =>
    left
    rw [makeMove] at hmk
    split at hmk
    · injection hmk with hmk
      subst hmk
      exact deal_get_other hfid_ne.1 hfid_ne.2.1
    · exact absurd hmk (by simp)
  | recycleWaste =>
    left
    rw [makeMove] at hmk
    split at hmk
    · exact absurd hmk (by simp)
    · injection hmk with hmk
      subst hmk
      rw [Table.recycle_waste]
      exact deal_get_other hfid_ne.1 hfid_ne.2.1
  | moveCards src tgt =>
    rcases mem_generatePlays hpm with ⟨hne, _⟩ | ⟨hne, _⟩ |
      ⟨src', tgt', card, heqp, hact, htgtid, hcard, hcan⟩
    · exact Play.noConfusion hne
    · exact Play.noConfusion hne
    · injection heqp with e1 e2
      subst e1
      subst e2
      have hlt := activeSources_index_lt hact
      have hsrc_ne_hand : src.stack ≠ .hand := activeSources_ne_hand hh hact
      have htgt_ne_hand : tgt ≠ .hand := targetIds_ne_hand tgt htgtid
      obtain ⟨t1, heq, hhand1, hsrc_cards, hothers⟩ :=
        take_selected_spec t src.stack src.index hlt
      rw [makeMove, heq] at hmk
      simp only [Option.map] at hmk
      injection hmk with hmk
      subst hmk
      by_cases htgtF : tgt ∈ FOUNDATIONS
      · have hsrcF : src.stack ∉ FOUNDATIONS := fun hs =>
          no_foundation_to_foundation hw hp hs htgtF hcard hlt hcan
        have hfid_src : fid ≠ src.stack := fun hfe => hsrcF (hfe ▸ hf)
        by_cases hfid_tgt : fid = tgt
        · subst hfid_tgt
          right
          have htty : (t.get fid).stack_type = .foundation := by
            rw [(hw fid).2]
            exact stackTypeOf_foundation hf
          have hone : (t.get src.stack).cards.length - src.index = 1 := by
            unfold Stack.can_play_card at hcan
            rw [htty] at hcan
            exact hcan.1
          refine ⟨card, ?_, ?_⟩
          · unfold Stack.can_play_card at hcan ⊢
            rw [htty] at hcan ⊢
            exact ⟨rfl, hcan.2⟩
          · have hidx : src.index = (t.get src.stack).cards.length - 1 := by omega
            rw [hidx] at hhand1 hcard
            have hdrop : (t.get src.stack).cards.drop ((t.get src.stack).cards.length - 1)
                = [card] := drop_pred_singleton hcard (by omega)
            rw [put_get_tgt hfid_ne.2.2 hfid_src]
            dsimp only
            rw [hothers fid hfid_src hfid_ne.2.2, hhand1, hdrop]
        · left
          rw [put_get_other hfid_tgt hfid_ne.2.2 hfid_src]
          exact hothers fid hfid_src hfid_ne.2.2
      · have hsrcF : src.stack ∉ FOUNDATIONS := filter_some_src_not_foundation htgtF hfilter
        have hfid_src : fid ≠ src.stack := fun hfe => hsrcF (hfe ▸ hf)
        have hfid_tgt : fid ≠ tgt := fun hfe => htgtF (hfe ▸ hf)
        left
        rw [put_get_other hfid_tgt hfid_ne.2.2 hfid_src]
        exact hothers fid hfid_src hfid_ne.2.2

theorem foundationSuit_mem {id : StackId} {su : Suit} (h : foundationSuit id = some su) :
    id ∈ FOUNDATIONS := by
  cases id <;> simp [foundationSuit] at h <;> decide

theorem searchStep_pure {t t' : Table} (hw : WellTyped t) (hp : PureFoundations t)
    (hh : t.in_hand.cards = []) (h : SearchStep t t') : PureFoundations t' := by
  intro id su hsu c hc
  have hidF : id ∈ FOUNDATIONS := foundationSuit_mem hsu
  rcases searchStep_foundation_effect hw hp hh h hidF with heq | ⟨c0, hcan, hcards⟩
  · rw [heq] at hc
    exact hp id su hsu c hc
  · rw [hcards] at hc
    rcases List.mem_append.mp hc with hc | hc
    · exact hp id su hsu c hc
    · have hc0 : c = c0 := List.mem_singleton.mp hc
      subst hc0
      have htty : (t.get id).stack_type = .foundation := by
        rw [(hw id).2]
        exact stackTypeOf_foundation hidF
      unfold Stack.can_play_card at hcan
      rw [htty] at hcan
      have hacc := hcan.2
      unfold Stack.foundation_can_accept_card at hacc
      by_cases hnil : (t.get id).cards = []
      · rw [if_pos hnil] at hacc
        have hsuit := hacc.2
        rw [(hw id).1, hsu] at hsuit
        injection hsuit with hsuit
        exact hsuit.symm
      · rw [if_neg hnil] at hacc
        cases htop : (t.get id).top_card with
        | none => rw [htop] at hacc; exact hacc.elim
        | some top =>
          rw [htop] at hacc
          have htop_mem : top ∈ (t.get id).cards := mem_of_getLast?_some htop
          have hts := hp id su hsu top htop_mem
          rw [hacc.1, hts]

/-- The invariant the search maintains: well-typed slots, empty hand, and
suit-pure foundations. -/
def SearchInv (t : Table) : Prop :=
  WellTyped t ∧ t.in_hand.cards = [] ∧ PureFoundations t

theorem searchInv_new (seed : Nat) : SearchInv (Table.new seed) := by
  refine ⟨wellTyped_new seed, rfl, ?_⟩
  intro id su hsu c hc
  have hidF := foundationSuit_mem hsu
  rcases show id = .foundation1 ∨ id = .foundation2 ∨ id = .foundation3 ∨ id = .foundation4
      from by simpa [FOUNDATIONS] using hidF with h | h | h | h
  · subst h
    exact absurd hc (by
      rw [show ((Table.new seed).get .foundation1).cards = [] from rfl]
      exact List.not_mem_nil c)
  · subst h
    exact absurd hc (by
      rw [show ((Table.new seed).get .foundation2).cards = [] from rfl]
      exact List.not_mem_nil c)
  · subst h
    exact absurd hc (by
      rw [show ((Table.new seed).get .foundation3).cards = [] from rfl]
      exact List.not_mem_nil c)
  · subst h
    exact absurd hc (by
      rw [show ((Table.new seed).get .foundation4).cards = [] from rfl]
      exact List.not_mem_nil c)

theorem searchInv_step {t t' : Table} (hi : SearchInv t) (h : SearchStep t t') :
    SearchInv t' := by
  obtain ⟨p, prev, h1, h2, h3⟩ := h
  exact ⟨wellTyped_makeMove hi.1 h3,
    genStep_hand_empty hi.2.1 ⟨p, h1, h3⟩,
    searchStep_pure hi.1 hi.2.2 hi.2.1 ⟨p, prev, h1, h2, h3⟩⟩

theorem searchReach_inv {seed : Nat} {t : Table} (h : SearchReach seed t) : SearchInv t := by
  induction h with
  | init => exact searchInv_new _
  | step _ hstep ih => exact searchInv_step ih hstep

theorem stepsFrom_inv {t u : Table} (hi : SearchInv t) (h : StepsFrom t u) : SearchInv u := by
  induction h with
  | refl => exact hi
  | tail _ hbc ih => exact searchInv_step ih hbc

theorem searchStep_top_monotone {t t' : Table} (hi : SearchInv t) (h : SearchStep t t')
    {fid : StackId} (hf : fid ∈ FOUNDATIONS) {c : Card}
    (hc : (t.get fid).cards.getLast? = some c) :
    ∃ c', (t'.get fid).cards.getLast? = some c' ∧ c.rank.val ≤ c'.rank.val := by
  obtain ⟨hw, hh, hp⟩ := hi
  rcases searchStep_foundation_effect hw hp hh h hf with heq | ⟨c0, hcan, hcards⟩
  · exact ⟨c, by rw [heq]; exact hc, le_refl _⟩
  · refine ⟨c0, ?_, ?_⟩
    · rw [hcards]
      exact List.getLast?_concat _
    · have hnil : (t.get fid).cards ≠ [] := by
        intro h0
        rw [h0] at hc
        simp at hc
      have htty : (t.get fid).stack_type = .foundation := by
        rw [(hw fid).2]
        exact stackTypeOf_foundation hf
      unfold Stack.can_play_card at hcan
      rw [htty] at hcan
      have hacc := hcan.2
      unfold Stack.foundation_can_accept_card at hacc
      rw [if_neg hnil] at hacc
      have htop : (t.get fid).top_card = some c := hc
      rw [htop] at hacc
      have hb := hacc.2
      unfold Card.is_one_below at hb
      omega

theorem stepsFrom_top_monotone {t u : Table} (hi : SearchInv t) (h : StepsFrom t u)
    {fid : StackId} (hf : fid ∈ FOUNDATIONS) {c : Card}
    (hc : (t.get fid).cards.getLast? = some c) :
    ∃ c', (u.get fid).cards.getLast? = some c' ∧ c.rank.val ≤ c'.rank.val := by
  induction h with
  | refl => exact ⟨c, hc, le_refl _⟩
  | tail hab hbc ih =>
    obtain ⟨c1, hc1, hle1⟩ := ih
    obtain ⟨c2, hc2, hle2⟩ := searchStep_top_monotone (stepsFrom_inv hi hab) hbc hf hc1
    exact ⟨c2, hc2, le_trans hle1 hle2⟩

/-! ### Remaining claim theorems and witnesses -/

/-- C1: along any sequence of generator-produced plays applied by
`make_move` from `Table::new(seed)`, the multiset of (suit, rank) pairs
across Stock, Waste, the four Foundations, the seven Tableaux and the
Hand is always the full 52-card deck. -/
theorem claim_C1_card_conservation (seed : Nat) (t : Table)
    (h : GenReachable seed t) : cardPairs t = fullDeckPairs :=
  (genReachable_inv h).2.2

def c1WitnessT1 : Table := (makeMove .drawFromStock (Table.new 0)).getD (Table.new 0)

/-- Witness for C1: the table after one generated draw from seed 0. -/
theorem claim_C1_witness :
    GenReachable 0 c1WitnessT1 ∧ cardPairs c1WitnessT1 = fullDeckPairs := by
  have hstep : GenStep (Table.new 0) c1WitnessT1 :=
    ⟨.drawFromStock, by decide, by decide⟩
  have hreach : GenReachable 0 c1WitnessT1 :=
    GenReachable.step (GenReachable.init 0) hstep
  exact ⟨hreach, claim_C1_card_conservation 0 c1WitnessT1 hreach⟩

/-- C2: from a table with empty Waste (and Hand), dealing the whole Stock
and recycling once restores the Stock in its original order, every card
face-down — identical to the original ignoring face flags — leaving the
Waste empty; the recycling call itself moves the whole Waste back
reversed and face-down. -/
theorem claim_C2_recycle_round_trip (t : Table) (hw : t.waste.cards = [])
    (hh : t.in_hand.cards = []) :
    t.dealUntilEmpty.recycle_waste.stock.cards
      = t.stock.cards.map (fun c => { c with face_up := false }) ∧
    t.dealUntilEmpty.recycle_waste.stock.cards.map pairOf = t.stock.cards.map pairOf ∧
    t.dealUntilEmpty.recycle_waste.waste.cards = [] ∧
    t.dealUntilEmpty.recycle_waste.stock.cards
      = (t.dealUntilEmpty.waste.cards.map fun c => { c with face_up := false }).reverse := by
  obtain ⟨h1, h2, h3⟩ := c2_core t hw
  refine ⟨h1, ?_, h2, h3⟩
  rw [h1, List.map_map]
  simp [Function.comp_def, pairOf]

/-- Witness for C2 at the deal of seed 324. -/
theorem claim_C2_witness :
    (Table.new 324).waste.cards = [] ∧ (Table.new 324).in_hand.cards = [] ∧
    ((Table.new 324).dealUntilEmpty.recycle_waste.stock.cards
        = (Table.new 324).stock.cards.map (fun c => { c with face_up := false }) ∧
      (Table.new 324).dealUntilEmpty.recycle_waste.stock.cards.map pairOf
        = (Table.new 324).stock.cards.map pairOf ∧
      (Table.new 324).dealUntilEmpty.recycle_waste.waste.cards = [] ∧
      (Table.new 324).dealUntilEmpty.recycle_waste.stock.cards
        = ((Table.new 324).dealUntilEmpty.waste.cards.map
            fun c => { c with face_up := false }).reverse) :=
  ⟨rfl, rfl, claim_C2_recycle_round_trip (Table.new 324) rfl rfl⟩

/-- Witness for C3's amended theorem at `tC3`. -/
theorem claim_C3_witness :
    WellTyped tC3 ∧ Play.moveCards ⟨.tableau1, 1⟩ .tableau2 ∈ generatePlays tC3 ∧
    StackId.tableau1 ∈ TABLEAUX ∧
    ∃ c, (tC3.get .tableau1).cards.get? 1 = some c ∧ c.face_up = true :=
  ⟨by decide, by decide, by decide,
    @claim_C3_generator_source_face_up tC3 (by decide) ⟨.tableau1, 1⟩ .tableau2
      (by decide) (by decide)⟩

/-- Witness for C4's amended theorem at `tC4`. -/
theorem claim_C4_witness :
    (tC4.get StackId.waste).cards.get? 0 = some ⟨.diamond, .king, true⟩ ∧
    StackId.tableau1 ∈ TABLEAUX ∧
    ((weightedPlay (.moveCards ⟨.waste, 0⟩ .tableau1) tC4).1 = 5 ∧
      ((¬ ∃ id c, c ∈ (tC4.get id).cards ∧ c.rank = .queen ∧
          c.suit = (Card.mk .diamond .king true).suit) →
        (weightedPlay (.moveCards ⟨.waste, 0⟩ .tableau1) tC4).2 = 99) ∧
      (∀ loc qc, tC4.find_card .queen (Card.mk .diamond .king true).suit = some loc →
        loc.stack ∈ TABLEAUX →
        (tC4.get loc.stack).cards.get? loc.index = some qc →
        (weightedPlay (.moveCards ⟨.waste, 0⟩ .tableau1) tC4).2
          = (if qc.face_up then 1 else -1)) ∧
      (∀ loc, tC4.find_card .queen (Card.mk .diamond .king true).suit = some loc →
        loc.stack ∉ TABLEAUX →
        (weightedPlay (.moveCards ⟨.waste, 0⟩ .tableau1) tC4).2 = 1)) :=
  ⟨rfl, by decide,
    claim_C4_waste_king_heuristic tC4 ⟨.waste, 0⟩ .tableau1 ⟨.diamond, .king, true⟩
      rfl (by decide) rfl rfl⟩

/-- Witness for C5: the empty spade Foundation accepts exactly a lone A♠. -/
theorem claim_C5_witness :
    (Stack.mk .foundation1 .foundation []).stack_type = .foundation ∧
    (Stack.mk .foundation1 .foundation []).can_play_card ⟨.spade, .ace, true⟩ 1 :=
  ⟨rfl, (claim_C5_foundation_accept (Stack.mk .foundation1 .foundation [])
      ⟨.spade, .ace, true⟩ 1 rfl).mpr ⟨rfl, Or.inl ⟨rfl, rfl, rfl⟩⟩⟩

/-- Witness for C6: an empty Tableau accepts a King. -/
theorem claim_C6_witness :
    (Stack.mk .tableau1 .tableau []).stack_type = .tableau ∧
    (Stack.mk .tableau1 .tableau []).tableau_can_accept_card ⟨.spade, .king, true⟩ :=
  ⟨rfl, (claim_C6_tableau_accept (Stack.mk .tableau1 .tableau [])
      ⟨.spade, .king, true⟩ rfl).mpr (Or.inl ⟨rfl, rfl⟩)⟩

/-- C7: along filtered search play from the initial deal, once a Foundation
holds a card, its top card's rank never decreases across any later applied
play. -/
theorem claim_C7_foundation_monotone (seed : Nat) (t u : Table)
    (hreach : SearchReach seed t) (hsteps : StepsFrom t u)
    (fid : StackId) (hf : fid ∈ FOUNDATIONS) (c : Card)
    (hc : (t.get fid).cards.getLast? = some c) :
    ∃ c', (u.get fid).cards.getLast? = some c' ∧ c.rank.val ≤ c'.rank.val :=
  stepsFrom_top_monotone (searchReach_inv hreach) hsteps hf hc

def c7T0 : Table := Table.new 0

def c7Play : Play := .moveCards ⟨.tableau1, 0⟩ .foundation4

def c7T1 : Table := (makeMove c7Play c7T0).getD c7T0

def c7T2 : Table := (makeMove .drawFromStock c7T1).getD c7T1

/-- Witness for C7: seed 0 promotes A♦ to Foundation4; a subsequent draw
leaves its top rank in place. -/
theorem claim_C7_witness :
    SearchReach 0 c7T1 ∧ StepsFrom c7T1 c7T2 ∧ StackId.foundation4 ∈ FOUNDATIONS ∧
    (c7T1.get .foundation4).cards.getLast? = some ⟨.diamond, .ace, true⟩ ∧
    ∃ c', (c7T2.get .foundation4).cards.getLast? = some c' ∧
      (Card.mk .diamond .ace true).rank.val ≤ c'.rank.val := by
  have hstep1 : SearchStep c7T0 c7T1 :=
    ⟨c7Play, [], by decide, by decide, by decide⟩
  have hstep2 : SearchStep c7T1 c7T2 :=
    ⟨.drawFromStock, [], by decide, by decide, by decide⟩
  have hreach : SearchReach 0 c7T1 :=
    SearchReach.step (SearchReach.init 0) hstep1
  have hsteps : StepsFrom c7T1 c7T2 :=
    StepsFrom.tail (StepsFrom.refl c7T1) hstep2
  exact ⟨hreach, hsteps, by decide, by decide,
    claim_C7_foundation_monotone 0 c7T1 c7T2 hreach hsteps .foundation4 (by decide)
      ⟨.diamond, .ace, true⟩ (by decide)⟩

/-- C8 is false as stated: a foundation-to-foundation `MoveCards` passes the
filter (the target is checked before the source). -/
theorem claim_C8_counterexample :
    filterPlay (Table.new 0) (.moveCards ⟨.foundation1, 0⟩ .foundation2) []
      = some (.moveCards ⟨.foundation1, 0⟩ .foundation2) ∧
    (Source.mk .foundation1 0).stack ∈ FOUNDATIONS :=
  ⟨rfl, by decide⟩

/-- Witness for C8's amended theorem. -/
theorem claim_C8_witness :
    (Source.mk .foundation1 0).stack ∈ FOUNDATIONS ∧ StackId.tableau1 ∉ FOUNDATIONS ∧
    filterPlay (Table.new 0) (.moveCards ⟨.foundation1, 0⟩ .tableau1) [] = none :=
  ⟨by decide, by decide,
    claim_C8_filter_foundation_source (Table.new 0) [] ⟨.foundation1, 0⟩ .tableau1
      (by decide) (by decide)⟩

def tC9 : Table :=
  { stock := ⟨.stock, .stock, []⟩
    waste := ⟨.waste, .waste, []⟩
    in_hand := ⟨.hand, .hand, []⟩
    foundation1 := ⟨.foundation1, .foundation, []⟩
    foundation2 := ⟨.foundation2, .foundation, []⟩
    foundation3 := ⟨.foundation3, .foundation, []⟩
    foundation4 := ⟨.foundation4, .foundation, []⟩
    tableau1 := ⟨.tableau1, .tableau, []⟩
    tableau2 := ⟨.tableau2, .tableau, []⟩
    tableau3 := ⟨.tableau3, .tableau, []⟩
    tableau4 := ⟨.tableau4, .tableau, []⟩
    tableau5 := ⟨.tableau5, .tableau, []⟩
    tableau6 := ⟨.tableau6, .tableau, []⟩
    tableau7 := ⟨.tableau7, .tableau, []⟩
    source := ⟨.stock, 0⟩
    target := .stock }

/-- Witness for C9. -/
theorem claim_C9_witness :
    makeMove .drawFromStock tC9 = none ∧
    makeMove .recycleWaste (Table.new 0) = none ∧
    makeMove .setup (Table.new 0) = none ∧
    Play.drawFromStock ∈ generatePlays (Table.new 0) ∧
    (makeMove .drawFromStock (Table.new 0)).isSome :=
  ⟨(claim_C9_make_move_panics tC9).1 rfl,
    (claim_C9_make_move_panics (Table.new 0)).2.1 (by decide),
    (claim_C9_make_move_panics (Table.new 0)).2.2.1,
    by decide,
    (claim_C9_make_move_panics (Table.new 0)).2.2.2 _ (by decide)⟩

/-- C10: with `index < len`, `take_selected_cards_from_stack` succeeds,
replaces the Hand's contents with exactly the removed suffix `[index ..]`
(whatever the Hand held before is gone from the table), truncates the
source stack to the prefix, and touches no other stack. -/
theorem claim_C10_take_selected (t : Table) (id : StackId) (i : Nat)
    (hi : i < (t.get id).cards.length) :
    ∃ t', t.take_selected_cards_from_stack id i = some t' ∧
      t'.in_hand.cards = (t.get id).cards.drop i ∧
      (id ≠ .hand → (t'.get id).cards = (t.get id).cards.take i) ∧
      (∀ j, j ≠ id → j ≠ .hand → t'.get j = t.get j) :=
  take_selected_spec t id i hi

/-- Witness for C10 on the seed-0 deal. -/
theorem claim_C10_witness :
    6 < ((Table.new 0).get .tableau7).cards.length ∧
    ∃ t', (Table.new 0).take_selected_cards_from_stack .tableau7 6 = some t' ∧
      t'.in_hand.cards = ((Table.new 0).get .tableau7).cards.drop 6 ∧
      (StackId.tableau7 ≠ .hand →
        (t'.get .tableau7).cards = ((Table.new 0).get .tableau7).cards.take 6) ∧
      (∀ j, j ≠ .tableau7 → j ≠ .hand → t'.get j = (Table.new 0).get j) :=
  ⟨by decide, claim_C10_take_selected (Table.new 0) .tableau7 6 (by decide)⟩

end Klondike